import Mathlib

/-!
Verification development for the CyberBud learning-assistant repository
(pydanticConvoAgent). The Python sources are shallowly embedded as
executable Lean definitions:

  - `parse_quiz_response` and its helpers embed the regex-based answer
    parser of `src/quiz.py` (each `re.search` call is specialised to an
    equivalent string-scanning function over `List Char`, reproducing
    Python's leftmost-match, greedy `\s*`-with-backtracking and lazy
    `(.+?)` semantics for the concrete patterns used);
  - `extract_concepts` and `CONCEPT_KEYWORDS` embed `src/models.py`;
  - `save_concept`, `update_concept_understanding` embed the SQLite
    operations of `src/database.py` over a `List ConceptRow` table;
  - `appStep` and its helpers embed the Streamlit quiz state machine of
    `app.py` (one `appStep` is one rerun of `main` with a given user
    interaction and a given outcome of the LLM call; the returned `Bool`
    records whether the LLM service was contacted during that rerun).
-/

namespace CyberBud

/-- Python regex `\s` for `str` patterns and the default `str.strip`
whitespace set: space, tab, newline, carriage return, vertical tab,
form feed. -/
def isPySpace (c : Char) : Bool :=
  c = ' ' || c = '\t' || c = '\n' || c = '\r' || c = '\x0b' || c = '\x0c'

/-- Python `str.strip()`: drop leading and trailing whitespace. -/
def pyStrip (cs : List Char) : List Char :=
  ((cs.dropWhile isPySpace).reverse.dropWhile isPySpace).reverse

/-- Lookahead `(?=\n[A-D]\))` of the `QUESTION:` pattern (quiz.py line 43). -/
def lookQuestionEnd (cs : List Char) : Bool :=
  match cs with
  | '\n' :: l :: ')' :: _ => l = 'A' || l = 'B' || l = 'C' || l = 'D'
  | _ => false

/-- Lookahead `(?=\n[B-D]\)|CORRECT:)` of the option pattern (quiz.py line 51). -/
def lookOptionEnd (cs : List Char) : Bool :=
  (match cs with
   | '\n' :: l :: ')' :: _ => l = 'B' || l = 'C' || l = 'D'
   | _ => false) || ("CORRECT:".toList.isPrefixOf cs)

/-- Lookahead `(?=\nCORRECT:)` of the fallback option pattern (quiz.py line 57). -/
def lookOptionEndAlt (cs : List Char) : Bool :=
  "\nCORRECT:".toList.isPrefixOf cs

/-- Lookahead `(?=\n[A-D]_EXPLANATION:)` of the `CORRECT_EXPLANATION:` pattern
(quiz.py line 72). -/
def lookCexpEnd (cs : List Char) : Bool :=
  match cs with
  | '\n' :: l :: rest =>
      (l = 'A' || l = 'B' || l = 'C' || l = 'D') && ("_EXPLANATION:".toList.isPrefixOf rest)
  | _ => false

/-- Lookahead `(?=\n[B-D]_EXPLANATION:|$)` of the per-letter explanation
pattern (quiz.py line 80).  Python `$` (without `re.MULTILINE`) matches at
the end of the string or just before a single trailing newline. -/
def lookExpEnd (cs : List Char) : Bool :=
  (match cs with
   | '\n' :: l :: rest =>
       (l = 'B' || l = 'C' || l = 'D') && ("_EXPLANATION:".toList.isPrefixOf rest)
   | _ => false) || cs.isEmpty || cs = ['\n']

/-- The lazy group `(.+?)(?=LOOK)` with `re.DOTALL`: capture the shortest
non-empty prefix of `cs` after which the lookahead `look` holds. -/
def lazyCapture (look : List Char → Bool) : List Char → Option (List Char)
  | [] => none
  | c :: rest =>
    if look rest then some [c]
    else
      match lazyCapture look rest with
      | some t => some (c :: t)
      | none => none

/-- Backtracking over greedy `\s*`: try consuming `j` whitespace characters,
largest `j` first, before the lazy group. -/
def wsLazy (look : List Char → Bool) (cs : List Char) : Nat → Option (List Char)
  | 0 => lazyCapture look cs
  | j + 1 =>
    match lazyCapture look (cs.drop (j + 1)) with
    | some t => some t
    | none => wsLazy look cs j

/-- Matcher for `\s*(.+?)(?=LOOK)` at a fixed position: `\s*` starts greedy
(the whole whitespace run) and backtracks. -/
def matchWsLazy (look : List Char → Bool) (cs : List Char) : Option (List Char) :=
  wsLazy look cs (cs.takeWhile isPySpace).length

/-- `re.search` for a pattern beginning with the literal `lit`: try every
start position left to right; at each occurrence of `lit` run the matcher
`m` on the remainder; the first position where `m` succeeds wins. -/
def searchLit {α : Type} (lit : List Char) (m : List Char → Option α) : List Char → Option α
  | [] => none
  | c :: rest =>
    match (if lit.isPrefixOf (c :: rest) then m ((c :: rest).drop lit.length) else none) with
    | some r => some r
    | none => searchLit lit m rest

/-- Matcher for `CORRECT:\s*([A-D])` after the literal: since letters are
not whitespace, the greedy-then-backtracking `\s*` matches exactly the
whole whitespace run, and the next character must be one of A-D. -/
def matchCorrectAt (cs : List Char) : Option Char :=
  match cs.dropWhile isPySpace with
  | c :: _ => if c = 'A' || c = 'B' || c = 'C' || c = 'D' then some c else none
  | [] => none

/-- `re.search(r'CORRECT:\s*([A-D])', text)` (quiz.py line 66). -/
def findCorrectLetter (text : List Char) : Option Char :=
  searchLit "CORRECT:".toList matchCorrectAt text

/-- Option extraction for one letter (quiz.py lines 50-60): primary pattern
`L\)\s*(.+?)(?=\n[B-D]\)|CORRECT:)`, then the alternate pattern
`L\)\s*(.+?)(?=\nCORRECT:)`; the captured group is stripped. -/
def parseOption (letter : Char) (text : List Char) : Option (List Char) :=
  match searchLit [letter, ')'] (fun cs => matchWsLazy lookOptionEnd cs) text with
  | some t => some (pyStrip t)
  | none =>
    match searchLit [letter, ')'] (fun cs => matchWsLazy lookOptionEndAlt cs) text with
    | some t => some (pyStrip t)
    | none => none

/-- Per-letter explanation extraction
`L_EXPLANATION:\s*(.+?)(?=\n[B-D]_EXPLANATION:|$)` (quiz.py lines 79-85). -/
def parseExplanation (letter : Char) (text : List Char) : Option (List Char) :=
  match searchLit (letter :: "_EXPLANATION:".toList) (fun cs => matchWsLazy lookExpEnd cs) text with
  | some t => some (pyStrip t)
  | none => none

/-- Parsed quiz data (the dict returned by `parse_quiz_response`).
`options` and `explanations` model the Python dicts as association lists
in insertion order. -/
structure QuizData where
  question : List Char
  options : List (Char × List Char)
  correct : Char
  correct_explanation : List Char
  explanations : List (Char × List Char)
deriving Repr, DecidableEq

def quizLetters : List Char := ['A', 'B', 'C', 'D']

/-- `parse_quiz_response` (quiz.py lines 32-96).  The Python body cannot
raise (the regex operations are total), so the `try/except` wrapper adds
nothing; the embedding is a total function into `Option`. -/
def parse_quiz_response (text : List Char) : Option QuizData :=
  match searchLit "QUESTION:".toList (fun cs => matchWsLazy lookQuestionEnd cs) text with
  | none => none
  | some q =>
    let options := quizLetters.filterMap
      (fun l => (parseOption l text).map (fun t => (l, t)))
    if options.length = 4 then
      match findCorrectLetter text with
      | none => none
      | some correct =>
        match searchLit "CORRECT_EXPLANATION:".toList
            (fun cs => matchWsLazy lookCexpEnd cs) text with
        | none => none
        | some ce =>
          some {
            question := pyStrip q
            options := options
            correct := correct
            correct_explanation := pyStrip ce
            explanations := quizLetters.map
              (fun l => (l, (parseExplanation l text).getD []))
          }
    else none

/-- The tail of a template-shaped response from the four per-letter
explanation lines on. -/
def respExps (ea eb ec ed : List Char) : List Char :=
  "\nA_EXPLANATION: ".toList ++ ea ++
  "\nB_EXPLANATION: ".toList ++ eb ++
  "\nC_EXPLANATION: ".toList ++ ec ++
  "\nD_EXPLANATION: ".toList ++ ed

/-- The tail from the CORRECT_EXPLANATION line on. -/
def respAfterCorr (cexp ea eb ec ed : List Char) : List Char :=
  "\nCORRECT_EXPLANATION: ".toList ++ cexp ++ respExps ea eb ec ed

/-- The tail from the CORRECT line on. -/
def respAfterD (corr : Char) (cexp ea eb ec ed : List Char) : List Char :=
  "\nCORRECT: ".toList ++ [corr] ++ respAfterCorr cexp ea eb ec ed

/-- The tail from the D) option line on. -/
def respAfterC (d : List Char) (corr : Char) (cexp ea eb ec ed : List Char) : List Char :=
  "\nD) ".toList ++ d ++ respAfterD corr cexp ea eb ec ed

/-- The tail from the C) option line on. -/
def respAfterB (c d : List Char) (corr : Char) (cexp ea eb ec ed : List Char) : List Char :=
  "\nC) ".toList ++ c ++ respAfterC d corr cexp ea eb ec ed

/-- The tail from the B) option line on. -/
def respAfterA (b c d : List Char) (corr : Char) (cexp ea eb ec ed : List Char) : List Char :=
  "\nB) ".toList ++ b ++ respAfterB c d corr cexp ea eb ec ed

/-- A response laid out exactly as the format block of
`QUIZ_PROMPT_TEMPLATE` (quiz.py lines 17-28) instructs: a QUESTION line,
option lines A) through D), a CORRECT line with one letter, a
CORRECT_EXPLANATION line and the four per-letter explanation lines. -/
def mkResponse (q a b c d : List Char) (corr : Char)
    (cexp ea eb ec ed : List Char) : List Char :=
  "QUESTION: ".toList ++ q ++ "\nA) ".toList ++ a ++
    respAfterA b c d corr cexp ea eb ec ed

/-! ## Concept extraction (src/models.py) -/

/-- `str.lower` restricted to ASCII, which covers every keyword in
`CONCEPT_KEYWORDS` and the case-insensitivity the claims are about. -/
def lowerChars (cs : List Char) : List Char := cs.map Char.toLower

def lowerStr (s : String) : List Char := lowerChars s.toList

/-- Python `needle in haystack` on strings: substring containment. -/
def containsSeq (needle : List Char) : List Char → Bool
  | [] => needle.isEmpty
  | c :: rest => needle.isPrefixOf (c :: rest) || containsSeq needle rest

/-- The fixed keyword table of src/models.py lines 38-92, in declaration
order of the dict literal. -/
def CONCEPT_KEYWORDS : List (String × List String) := [
  ("Threat Intelligence", [
    "IOC", "indicator of compromise", "threat feed", "STIX", "TAXII",
    "threat actor", "APT", "advanced persistent threat", "TTP",
    "tactics techniques procedures", "campaign", "threat hunting"
  ]),
  ("Cryptography", [
    "hash", "hashing", "MD5", "SHA", "SHA-256", "SHA-1",
    "encryption", "decryption", "AES", "RSA", "symmetric", "asymmetric",
    "public key", "private key", "certificate", "TLS", "SSL", "PKI",
    "digital signature", "cipher", "plaintext", "ciphertext"
  ]),
  ("Network Security", [
    "firewall", "IDS", "IPS", "intrusion detection", "intrusion prevention",
    "VPN", "proxy", "DMZ", "network segmentation", "VLAN",
    "packet", "protocol", "TCP", "UDP", "IP address", "port",
    "DNS", "DHCP", "NAT", "router", "switch"
  ]),
  ("Malware", [
    "malware", "virus", "worm", "trojan", "ransomware", "spyware",
    "adware", "rootkit", "botnet", "backdoor", "keylogger",
    "payload", "exploit", "zero-day", "0day"
  ]),
  ("Authentication", [
    "authentication", "authorization", "MFA", "2FA", "multi-factor",
    "password", "credential", "SSO", "single sign-on", "OAuth",
    "SAML", "token", "session", "identity", "IAM", "RBAC"
  ]),
  ("Frameworks & Standards", [
    "NIST", "MITRE ATT&CK", "ATT&CK", "ISO 27001", "CIS Controls",
    "SOC 2", "PCI DSS", "HIPAA", "GDPR", "compliance",
    "framework", "standard", "policy", "procedure", "control"
  ]),
  ("Incident Response", [
    "incident response", "IR", "forensics", "DFIR", "triage",
    "containment", "eradication", "recovery", "lessons learned",
    "playbook", "SIEM", "SOC", "security operations", "alert"
  ]),
  ("Vulnerabilities", [
    "vulnerability", "CVE", "patch", "exploit", "buffer overflow",
    "SQL injection", "XSS", "cross-site scripting", "CSRF",
    "RCE", "remote code execution", "privilege escalation",
    "OWASP", "penetration testing", "pentest", "bug bounty"
  ]),
  ("Cloud Security", [
    "cloud security", "AWS", "Azure", "GCP", "S3 bucket",
    "IAM policy", "security group", "container", "Docker", "Kubernetes",
    "serverless", "shared responsibility", "cloud native"
  ]),
  ("Social Engineering", [
    "phishing", "spear phishing", "vishing", "smishing", "pretexting",
    "social engineering", "baiting", "tailgating", "impersonation",
    "business email compromise", "BEC"
  ])
]

/-- The nested `for category / for keyword / if keyword.lower() in
text_lower` loops of `extract_concepts`: every keyword passing `pred` is
emitted as `(keyword, category)`, categories in table order and keywords
in list order. -/
def foundPairs (pred : String → Bool) : List (String × List String) → List (String × String)
  | [] => []
  | (cat, kws) :: rest =>
      kws.filterMap (fun kw => if pred kw then some (kw, cat) else none)
        ++ foundPairs pred rest

/-- The de-duplication loop of `extract_concepts` (models.py lines
110-115): drop an item whose lower-cased name was already seen, keeping
first-occurrence order. -/
def dedupByName : List (String × String) → List (List Char) → List (String × String)
  | [], _ => []
  | (name, cat) :: rest, seen =>
    if seen.contains (lowerStr name) then dedupByName rest seen
    else (name, cat) :: dedupByName rest (lowerStr name :: seen)

/-- `extract_concepts` (models.py lines 95-117). -/
def extract_concepts (text : List Char) : List (String × String) :=
  let text_lower := lowerChars text
  dedupByName
    (foundPairs (fun kw => containsSeq (lowerStr kw) text_lower) CONCEPT_KEYWORDS)
    []

/-! ## Concept store (src/database.py) -/

/-- One row of the `concepts` table.  Timestamps are abstract `Nat` ticks;
`last_reviewed_at` is nullable. -/
structure ConceptRow where
  id : Nat
  name : String
  category : Option String
  times_discussed : Nat
  understanding_level : Int
  last_reviewed_at : Option Nat
deriving Repr, DecidableEq

/-- Fresh `AUTOINCREMENT` row id: one more than the largest id in use. -/
def freshConceptId (db : List ConceptRow) : Nat :=
  (db.map (fun r => r.id)).foldr max 0 + 1

/-- `save_concept` (database.py lines 185-211): look the name up
(`SELECT ... WHERE name = ?`); if a row exists, bump its
`times_discussed` by one (`UPDATE ... WHERE id = ?`), otherwise insert a
new row with the column defaults (`times_discussed` 1,
`understanding_level` 1, `last_reviewed_at` NULL).  Returns the new table
and the concept id. -/
def save_concept (db : List ConceptRow) (name : String) (category : Option String) :
    List ConceptRow × Nat :=
  match db.find? (fun r => r.name == name) with
  | some row =>
      (db.map (fun r =>
        if r.id = row.id then { r with times_discussed := r.times_discussed + 1 } else r),
       row.id)
  | none =>
      let newId := freshConceptId db
      (db ++ [{ id := newId, name := name, category := category,
                times_discussed := 1, understanding_level := 1,
                last_reviewed_at := none }],
       newId)

/-- `update_concept_understanding` (database.py lines 258-267):
`UPDATE concepts SET understanding_level = max(1, min(5, level)),
last_reviewed_at = now WHERE id = ?`. -/
def update_concept_understanding (db : List ConceptRow) (concept_id : Nat)
    (level : Int) (now : Nat) : List ConceptRow :=
  db.map (fun r =>
    if r.id = concept_id then
      { r with understanding_level := max 1 (min 5 level), last_reviewed_at := some now }
    else r)

/-! ## Quiz state machine (app.py, quiz.py, sidebar.py) -/

/-- One entry of `quiz_state["results"]` (app.py lines 216-219). -/
structure QuizResult where
  concept_id : Nat
  correct : Bool
deriving Repr, DecidableEq

/-- The `quiz_state` dict (quiz.py `create_initial_quiz_state`).
`correct` holds the Python string field (initially `""`, later a one-letter
string). -/
structure QuizMachineState where
  active : Bool
  concepts : List ConceptRow
  current_index : Nat
  question : List Char
  options : List (Char × List Char)
  correct : List Char
  explanations : List (Char × List Char)
  correct_explanation : List Char
  user_answer : Option Char
  answered : Bool
  results : List QuizResult
  loading : Bool
deriving Repr, DecidableEq

/-- `create_initial_quiz_state` (quiz.py lines 158-181). -/
def create_initial_quiz_state (concepts : List ConceptRow) : QuizMachineState :=
  { active := true
    concepts := concepts
    current_index := 0
    question := []
    options := []
    correct := []
    explanations := []
    correct_explanation := []
    user_answer := none
    answered := false
    results := []
    loading := true }

/-- The per-session Streamlit state the quiz flow uses. -/
structure SessionState where
  quiz_mode : Bool
  quiz_concepts : List ConceptRow
  awaiting_rating : Bool
  quiz_state : Option QuizMachineState
  message_count : Nat
deriving Repr, DecidableEq

def MAX_MESSAGES_PER_SESSION : Nat := 25

/-- `check_message_limit` (app.py lines 41-43). -/
def check_message_limit (s : SessionState) : Bool :=
  MAX_MESSAGES_PER_SESSION ≤ s.message_count

/-- `advance_quiz` (app.py lines 273-287). -/
def advance_quiz (qs : QuizMachineState) : QuizMachineState :=
  { qs with
    current_index := qs.current_index + 1
    question := []
    options := []
    correct := []
    explanations := []
    correct_explanation := []
    user_answer := none
    answered := false
    loading := true }

/-- Outcome of one `generate_quiz_question` call as observed by
`render_quiz_question`: the call raises `ModelHTTPError`, raises some
other exception, or returns (`none` when `parse_quiz_response` failed). -/
inductive GenOutcome where
  | modelHttpError
  | otherError
  | returned (result : Option QuizData)
deriving Repr, DecidableEq

/-- The user interaction carried by one Streamlit rerun: no click, one of
the four answer buttons, the Next button, the End Quiz / Done button, a
rating button, or a chat submission (`ok` is whether the LLM chat call
succeeds). -/
inductive Click where
  | idle
  | answer (letter : Char)
  | next
  | finish
  | rate (level : Int)
  | chat (ok : Bool)
deriving Repr, DecidableEq

/-- `render_quiz_question` (app.py lines 142-221).  State effect of one
rerun through it: the limit check aborts the quiz before anything else;
in the loading state the question is generated (`concepts[current_index]`
is read before the call — an out-of-range index raises IndexError in
Python, leaving the state unchanged and the LLM uncontacted); otherwise
the question is displayed and a clicked answer button records the result.
The `Bool` is true iff `generate_quiz_question` was invoked. -/
def render_quiz_question (gen : GenOutcome) (click : Click) (s : SessionState) :
    SessionState × Bool :=
  match s.quiz_state with
  | none => (s, false)
  | some qs =>
    if check_message_limit s then
      ({ s with quiz_mode := false, quiz_state := none }, false)
    else if qs.loading then
      match qs.concepts[qs.current_index]? with
      | none => (s, false)
      | some _ =>
        match gen with
        | .modelHttpError => ({ s with quiz_mode := false, quiz_state := none }, true)
        | .otherError => ({ s with quiz_mode := false, quiz_state := none }, true)
        | .returned none => ({ s with quiz_state := some (advance_quiz qs) }, true)
        | .returned (some qd) =>
            ({ s with
                message_count := s.message_count + 1
                quiz_state := some { qs with
                  question := qd.question
                  options := qd.options
                  correct := [qd.correct]
                  explanations := qd.explanations
                  correct_explanation := qd.correct_explanation
                  loading := false } }, true)
    else
      match click with
      | .answer letter =>
        match qs.concepts[qs.current_index]? with
        | none => (s, false)
        | some current_concept =>
            ({ s with quiz_state := some { qs with
                user_answer := some letter
                answered := true
                results := qs.results ++
                  [{ concept_id := current_concept.id
                     correct := [letter] == qs.correct }] } }, false)
      | _ => (s, false)

/-- `render_quiz_result` (app.py lines 224-270): requires an answered
question; Next (rendered only when the index is not last) runs
`advance_quiz`, End Quiz / Done runs `finish_quiz`. -/
def render_quiz_result (click : Click) (s : SessionState) : SessionState :=
  match s.quiz_state with
  | none => s
  | some qs =>
    if qs.answered then
      match click with
      | .next =>
          if qs.current_index < qs.concepts.length - 1 then
            { s with quiz_state := some (advance_quiz qs) }
          else s
      | .finish => { s with awaiting_rating := true }
      | _ => s
    else s

/-- The session-state part of `update_quiz_understanding` (app.py lines
105-114): leave quiz mode and drop the quiz state. -/
def reset_quiz_session (s : SessionState) : SessionState :=
  { s with quiz_mode := false, quiz_concepts := [], awaiting_rating := false,
           quiz_state := none }

/-- `update_quiz_understanding` (app.py lines 105-114): apply one rating
to every concept of the quiz batch in the concept store, then reset the
quiz session state.  (Python calls `datetime.now()` once per concept;
the single `now` tick stands for that rerun's clock.) -/
def update_quiz_understanding (s : SessionState) (db : List ConceptRow)
    (level : Int) (now : Nat) : SessionState × List ConceptRow :=
  (reset_quiz_session s,
   s.quiz_concepts.foldl (fun acc c => update_concept_understanding acc c.id level now) db)

/-- `quiz_active` check of `main` (app.py lines 320-324). -/
def quiz_active (s : SessionState) : Bool :=
  s.quiz_mode &&
    (match s.quiz_state with
     | some qs => qs.active
     | none => false)

/-- One rerun of `main` (app.py lines 295-376) restricted to its state
effect: dispatch to the quiz question / quiz result / rating / chat
branch, exactly as `main` does.  The `Bool` is true iff the rerun
contacted the LLM service (question generation or chat call). -/
def appStep (s : SessionState) (gen : GenOutcome) (click : Click) :
    SessionState × Bool :=
  if quiz_active s && !s.awaiting_rating then
    match s.quiz_state with
    | some qs =>
        if qs.answered then (render_quiz_result click s, false)
        else render_quiz_question gen click s
    | none => (s, false)
  else if s.quiz_mode && s.awaiting_rating then
    match click with
    | .rate _ => (reset_quiz_session s, false)
    | _ => (s, false)
  else
    match click with
    | .chat ok =>
        if check_message_limit s then (s, false)
        else if ok then ({ s with message_count := s.message_count + 1 }, true)
        else (s, true)
    | _ => (s, false)

/-- Run the application through a list of reruns. -/
def runApp (s : SessionState) : List (GenOutcome × Click) → SessionState
  | [] => s
  | e :: es => runApp (appStep s e.1 e.2).1 es

/-- A rerun in which an answer button click is recorded: the quiz branch
is taken, the question is on display (not loading, not answered), the
budget is not exhausted, and the click is an answer. -/
def effective_answer (s : SessionState) (click : Click) : Bool :=
  quiz_active s && !s.awaiting_rating &&
    (match s.quiz_state, click with
     | some qs, .answer _ =>
         !qs.answered && !check_message_limit s && !qs.loading &&
           decide (qs.current_index < qs.concepts.length)
     | _, _ => false)

/-- Number of questions answered along a run. -/
def countAnswered (s : SessionState) : List (GenOutcome × Click) → Nat
  | [] => 0
  | e :: es =>
      (if effective_answer s e.2 then 1 else 0) + countAnswered (appStep s e.1 e.2).1 es

/-- `start_quiz_mode` (sidebar.py lines 248-264) with a non-empty concept
selection: quiz mode on, rating off, fresh quiz state. -/
def start_quiz_session (concepts : List ConceptRow) (message_count : Nat) : SessionState :=
  { quiz_mode := true
    quiz_concepts := concepts
    awaiting_rating := false
    quiz_state := some (create_initial_quiz_state concepts)
    message_count := message_count }

/-- Results currently recorded in the quiz state. -/
def resultsOf (s : SessionState) : List QuizResult :=
  match s.quiz_state with
  | some qs => qs.results
  | none => []

/-- The spec-side flattening of the keyword table: every (keyword,
category) pair in the table's own iteration order — categories in
declaration order, keywords in list order.  Used to compare the order of
`extract_concepts` output against the table order. -/
def tableIterationOrder : List (String × String) :=
  foundPairs (fun _ => true) CONCEPT_KEYWORDS

/-- Alignment invariant of the quiz results: the recorded concept ids
are, in order, a subsequence of the ids of the concepts already passed
(those before `current_index`, plus the current one once answered). -/
def resultsAligned (qs : QuizMachineState) : Prop :=
  List.Sublist (qs.results.map fun r => r.concept_id)
    ((qs.concepts.take (qs.current_index + (if qs.answered then 1 else 0))).map fun c => c.id)

/-- Session-level form of `resultsAligned`. -/
def sessionAligned (s : SessionState) : Prop :=
  ∀ qs, s.quiz_state = some qs → resultsAligned qs

/-- Two sample concept rows used as concrete inputs. -/
def sampleConceptA : ConceptRow :=
  { id := 1, name := "firewall", category := some "Network Security",
    times_discussed := 1, understanding_level := 1, last_reviewed_at := none }

def sampleConceptB : ConceptRow :=
  { id := 2, name := "phishing", category := some "Social Engineering",
    times_discussed := 1, understanding_level := 1, last_reviewed_at := none }

/-- Session state at the rating screen, used as a concrete input. -/
def sampleRatingSession : SessionState :=
  { quiz_mode := true, quiz_concepts := [sampleConceptA, sampleConceptB],
    awaiting_rating := true, quiz_state := none, message_count := 4 }

/-- Expected stored rows for the concrete rating scenarios. -/
def sampleRatedA : ConceptRow :=
  { id := 1, name := "firewall", category := some "Network Security",
    times_discussed := 1, understanding_level := 5, last_reviewed_at := some 7 }

def sampleRatedB : ConceptRow :=
  { id := 2, name := "phishing", category := some "Social Engineering",
    times_discussed := 1, understanding_level := 5, last_reviewed_at := some 7 }

def sampleClampedHigh : ConceptRow :=
  { id := 1, name := "firewall", category := some "Network Security",
    times_discussed := 1, understanding_level := 5, last_reviewed_at := some 3 }

def sampleClampedLow : ConceptRow :=
  { id := 1, name := "firewall", category := some "Network Security",
    times_discussed := 1, understanding_level := 1, last_reviewed_at := some 3 }

/-- A sample parsed question used as a concrete generation outcome. -/
def sampleQuizData : QuizData :=
  { question := "What does a firewall do".toList
    options := [('A', "filters traffic".toList), ('B', "encrypts disks".toList),
                ('C', "sends mail".toList), ('D', "stores logs".toList)]
    correct := 'A'
    correct_explanation := "it filters network traffic".toList
    explanations := [('A', "right".toList), ('B', "wrong".toList),
                     ('C', "wrong".toList), ('D', "wrong".toList)] }

end CyberBud

namespace CyberBud

/-! ## Helper lemmas -/

theorem mem_update_eq {db : List ConceptRow} {cid : Nat} {level : Int} {now : Nat}
    {r : ConceptRow} (hmem : r ∈ update_concept_understanding db cid level now)
    (hid : r.id = cid) :
    r.understanding_level = max 1 (min 5 level) ∧ r.last_reviewed_at = some now := by
  rcases List.mem_map.mp hmem with ⟨r₀, _, hr⟩
  by_cases h : r₀.id = cid
  · simp only [h, if_pos] at hr
    subst hr
    exact ⟨rfl, rfl⟩
  · simp only [h, if_neg, not_false_iff] at hr
    subst hr
    exact absurd hid h

theorem mem_update_ne {db : List ConceptRow} {cid : Nat} {level : Int} {now : Nat}
    {r : ConceptRow} (hmem : r ∈ update_concept_understanding db cid level now)
    (hid : r.id ≠ cid) : r ∈ db := by
  rcases List.mem_map.mp hmem with ⟨r₀, hr₀, hr⟩
  by_cases h : r₀.id = cid
  · rw [if_pos h] at hr
    subst hr
    exact absurd h (by simpa using hid)
  · rw [if_neg h] at hr
    subst hr
    exact hr₀

theorem mem_fold_update_untouched {level : Int} {now : Nat} :
    ∀ (batch : List ConceptRow) (db : List ConceptRow) (r : ConceptRow),
      r ∈ batch.foldl (fun acc c => update_concept_understanding acc c.id level now) db →
      r.id ∉ batch.map (fun c => c.id) → r ∈ db := by
  intro batch
  induction batch with
  | nil => intro db r hmem _; exact hmem
  | cons c rest ih =>
      intro db r hmem hid
      simp only [List.map_cons, List.mem_cons, not_or] at hid
      have h₁ : r ∈ update_concept_understanding db c.id level now :=
        ih (update_concept_understanding db c.id level now) r hmem hid.2
      exact mem_update_ne h₁ hid.1

theorem mem_fold_update {level : Int} {now : Nat} :
    ∀ (batch : List ConceptRow) (db : List ConceptRow) (r : ConceptRow),
      r ∈ batch.foldl (fun acc c => update_concept_understanding acc c.id level now) db →
      r.id ∈ batch.map (fun c => c.id) →
      r.understanding_level = max 1 (min 5 level) ∧ r.last_reviewed_at = some now := by
  intro batch
  induction batch with
  | nil => intro db r _ hid; simp at hid
  | cons c rest ih =>
      intro db r hmem hid
      by_cases hrest : r.id ∈ rest.map (fun c => c.id)
      · exact ih (update_concept_understanding db c.id level now) r hmem hrest
      · have hc : r.id = c.id := by
          simp only [List.map_cons, List.mem_cons] at hid
          tauto
        have h₁ : r ∈ update_concept_understanding db c.id level now :=
          mem_fold_update_untouched rest _ r hmem hrest
        exact mem_update_eq h₁ hc

/-! ## Claim C7 -/

/-- Claim C7: `update_concept_understanding` stores the level clamped to
the closed range 1..5: an input above 5 stores 5, an input below 1
stores 1, and an in-range input is stored unchanged. -/
theorem update_concept_understanding_clamps
    (db : List ConceptRow) (cid : Nat) (level : Int) (now : Nat) (r : ConceptRow)
    (hmem : r ∈ update_concept_understanding db cid level now) (hid : r.id = cid) :
    r.understanding_level = max 1 (min 5 level) ∧
    (5 < level → r.understanding_level = 5) ∧
    (level < 1 → r.understanding_level = 1) ∧
    (1 ≤ level → level ≤ 5 → r.understanding_level = level) ∧
    1 ≤ r.understanding_level ∧ r.understanding_level ≤ 5 := by
  have h := mem_update_eq hmem hid
  refine ⟨h.1, ?_, ?_, ?_, ?_, ?_⟩ <;> rw [h.1] <;> intros <;> omega

/-- Witness for C7: storing level 9 for the firewall row yields stored
level 5, and storing level -3 yields stored level 1. -/
theorem update_concept_understanding_clamps_witness :
    (sampleClampedHigh ∈ update_concept_understanding [sampleConceptA] 1 9 3 ∧
      sampleClampedHigh.understanding_level = 5) ∧
    (sampleClampedLow ∈ update_concept_understanding [sampleConceptA] 1 (-3) 3 ∧
      sampleClampedLow.understanding_level = 1) := by
  have hm1 : sampleClampedHigh ∈ update_concept_understanding [sampleConceptA] 1 9 3 := by decide
  have hm2 : sampleClampedLow ∈ update_concept_understanding [sampleConceptA] 1 (-3) 3 := by decide
  exact ⟨⟨hm1, (update_concept_understanding_clamps _ 1 9 3 _ hm1 (by decide)).2.1 (by decide)⟩,
         ⟨hm2, (update_concept_understanding_clamps _ 1 (-3) 3 _ hm2 (by decide)).2.2.1 (by decide)⟩⟩

/-! ## Claim C4 -/

/-- Claim C4: submitting one rating after a quiz applies that single
level to every concept of the quiz batch: every stored row whose id is
in the batch ends with `understanding_level` equal to the submitted
(in-range) level and a refreshed `last_reviewed_at`. -/
theorem update_quiz_understanding_blanket
    (s : SessionState) (db : List ConceptRow) (level : Int) (now : Nat) (r : ConceptRow)
    (hlo : 1 ≤ level) (hhi : level ≤ 5)
    (hmem : r ∈ (update_quiz_understanding s db level now).2)
    (hid : r.id ∈ s.quiz_concepts.map (fun c => c.id)) :
    r.understanding_level = level ∧ r.last_reviewed_at = some now := by
  have h := mem_fold_update s.quiz_concepts db r hmem hid
  refine ⟨?_, h.2⟩
  rw [h.1]
  omega

/-- Witness for C4: the quiz batch of the two sample concepts rated 5
leaves both stored rows at level 5 with the fresh timestamp. -/
theorem update_quiz_understanding_blanket_witness :
    (sampleRatedA ∈ (update_quiz_understanding sampleRatingSession
        [sampleConceptA, sampleConceptB] 5 7).2 ∧
      sampleRatedA.understanding_level = 5 ∧ sampleRatedA.last_reviewed_at = some 7) ∧
    (sampleRatedB ∈ (update_quiz_understanding sampleRatingSession
        [sampleConceptA, sampleConceptB] 5 7).2 ∧
      sampleRatedB.understanding_level = 5 ∧ sampleRatedB.last_reviewed_at = some 7) := by
  have hmA : sampleRatedA ∈ (update_quiz_understanding sampleRatingSession
      [sampleConceptA, sampleConceptB] 5 7).2 := by decide
  have hmB : sampleRatedB ∈ (update_quiz_understanding sampleRatingSession
      [sampleConceptA, sampleConceptB] 5 7).2 := by decide
  exact ⟨⟨hmA, update_quiz_understanding_blanket sampleRatingSession
            [sampleConceptA, sampleConceptB] 5 7 sampleRatedA
            (by decide) (by decide) hmA (by decide)⟩,
         ⟨hmB, update_quiz_understanding_blanket sampleRatingSession
            [sampleConceptA, sampleConceptB] 5 7 sampleRatedB
            (by decide) (by decide) hmB (by decide)⟩⟩

/-! ## Claim C9 -/

/-- Claim C9: `save_concept` is an upsert keyed by name.  If a row with
the name exists, no row is inserted (the table keeps its length), the
returned id is that row's id, and that row's `times_discussed` grows by
one; if no row with the name exists, exactly the one new row with the
default count 1 is appended. -/
theorem save_concept_upsert (db : List ConceptRow) (name : String) (category : Option String) :
    (∀ r₀, db.find? (fun r => r.name == name) = some r₀ →
      (save_concept db name category).1.length = db.length ∧
      (save_concept db name category).2 = r₀.id ∧
      ∃ r' ∈ (save_concept db name category).1,
        r'.id = r₀.id ∧ r'.name = r₀.name ∧
        r'.times_discussed = r₀.times_discussed + 1) ∧
    (db.find? (fun r => r.name == name) = none →
      (save_concept db name category).1 =
        db ++ [{ id := freshConceptId db, name := name, category := category,
                 times_discussed := 1, understanding_level := 1,
                 last_reviewed_at := none }] ∧
      (save_concept db name category).1.length = db.length + 1) := by
  constructor
  · intro r₀ hfind
    have hmem : r₀ ∈ db := List.mem_of_find?_eq_some hfind
    refine ⟨?_, ?_, ?_⟩
    · simp [save_concept, hfind]
    · simp [save_concept, hfind]
    · refine ⟨{ r₀ with times_discussed := r₀.times_discussed + 1 }, ?_, rfl, rfl, rfl⟩
      simp only [save_concept, hfind]
      exact List.mem_map.mpr ⟨r₀, hmem, by rw [if_pos rfl]⟩
  · intro hfind
    refine ⟨?_, ?_⟩
    · simp [save_concept, hfind]
    · simp [save_concept, hfind]

/-- Witness for C9: the concept "firewall" saved twice starting from an
empty table ends as exactly one row with `times_discussed` 2. -/
theorem save_concept_upsert_witness :
    (save_concept [] "firewall" (some "Network Security")).1.find?
        (fun r => r.name == "firewall") = some
      { id := 1, name := "firewall", category := some "Network Security",
        times_discussed := 1, understanding_level := 1, last_reviewed_at := none } ∧
    (save_concept (save_concept [] "firewall" (some "Network Security")).1
        "firewall" (some "Network Security")).1.length = 1 ∧
    ∃ r' ∈ (save_concept (save_concept [] "firewall" (some "Network Security")).1
        "firewall" (some "Network Security")).1,
      r'.id = 1 ∧ r'.name = "firewall" ∧ r'.times_discussed = 2 := by
  have hfind : (save_concept [] "firewall" (some "Network Security")).1.find?
      (fun r => r.name == "firewall") = some
    { id := 1, name := "firewall", category := some "Network Security",
      times_discussed := 1, understanding_level := 1, last_reviewed_at := none } := by decide
  have h := (save_concept_upsert (save_concept [] "firewall" (some "Network Security")).1
    "firewall" (some "Network Security")).1 _ hfind
  exact ⟨hfind, by simpa using h.1, h.2.2⟩

/-! ## Claim C3 -/

/-- Claim C3: once the per-session message count has reached the cap of
25, one rerun of the app never contacts the LLM service, whatever the
interaction and whatever the LLM would have answered; and when the quiz
branch is about to generate or show a question, it aborts quiz mode to
idle instead. -/
theorem budget_blocks_llm (s : SessionState) (gen : GenOutcome) (click : Click)
    (hlim : MAX_MESSAGES_PER_SESSION ≤ s.message_count) :
    (appStep s gen click).2 = false ∧
    (quiz_active s = true → s.awaiting_rating = false →
      (∀ qs, s.quiz_state = some qs → qs.answered = false) →
      (appStep s gen click).1.quiz_mode = false ∧
      (appStep s gen click).1.quiz_state = none) := by
  have hc : check_message_limit s = true := by
    unfold check_message_limit
    exact decide_eq_true hlim
  cases hact : (quiz_active s && !s.awaiting_rating) with
  | false =>
      have hstep2 : (appStep s gen click).2 = false := by
        cases click <;> simp [appStep, hact, hc, apply_ite]
      refine ⟨hstep2, fun hq hr _ => ?_⟩
      rw [quiz_active] at hact
      rw [quiz_active] at hq
      rw [hq, hr] at hact
      simp at hact
  | true =>
      obtain ⟨qs, hqs⟩ : ∃ qs, s.quiz_state = some qs := by
        cases hqs : s.quiz_state with
        | none => rw [quiz_active, hqs] at hact; simp at hact
        | some qs => exact ⟨qs, rfl⟩
      cases hans : qs.answered with
      | true =>
          have hstep : appStep s gen click = (render_quiz_result click s, false) := by
            simp [appStep, hact, hqs, hans]
          refine ⟨by rw [hstep], fun _ _ hall => ?_⟩
          exact absurd (hall qs hqs) (by rw [hans]; simp)
      | false =>
          have hstep : appStep s gen click =
              ({ s with quiz_mode := false, quiz_state := none }, false) := by
            simp [appStep, hact, hqs, hans, render_quiz_question, hc]
          rw [hstep]
          exact ⟨rfl, fun _ _ _ => ⟨rfl, rfl⟩⟩

/-- Witness for C3: at a message count of 25 in a freshly started quiz,
the rerun contacts no LLM and aborts the quiz to idle. -/
theorem budget_blocks_llm_witness :
    MAX_MESSAGES_PER_SESSION ≤
      (start_quiz_session [sampleConceptA, sampleConceptB] 25).message_count ∧
    (appStep (start_quiz_session [sampleConceptA, sampleConceptB] 25)
        (.returned (some sampleQuizData)) .idle).2 = false ∧
    (appStep (start_quiz_session [sampleConceptA, sampleConceptB] 25)
        (.returned (some sampleQuizData)) .idle).1.quiz_mode = false ∧
    (appStep (start_quiz_session [sampleConceptA, sampleConceptB] 25)
        (.returned (some sampleQuizData)) .idle).1.quiz_state = none := by
  have h := budget_blocks_llm (start_quiz_session [sampleConceptA, sampleConceptB] 25)
    (.returned (some sampleQuizData)) .idle (by decide)
  have h2 := h.2 (by decide) (by decide)
    (by intro qs hqs; cases hqs; rfl)
  exact ⟨by decide, h.1, h2.1, h2.2⟩

/-! ## Claim C1 -/

/-- Counterexample to C1 as stated: when the LLM call for the first
concept raises, the quiz does not skip the concept and continue — the
machine abandons the quiz entirely (quiz mode off, quiz state dropped,
no transition to the rating screen). -/
theorem llm_error_abandons_quiz :
    (appStep (start_quiz_session [sampleConceptA, sampleConceptB] 0)
        .modelHttpError .idle).1.quiz_mode = false ∧
    (appStep (start_quiz_session [sampleConceptA, sampleConceptB] 0)
        .modelHttpError .idle).1.quiz_state = none ∧
    (appStep (start_quiz_session [sampleConceptA, sampleConceptB] 0)
        .modelHttpError .idle).1.awaiting_rating = false ∧
    (appStep (start_quiz_session [sampleConceptA, sampleConceptB] 0)
        .otherError .idle).1.quiz_state = none := by
  decide

/-- Claim C1 amended: an unparsable reply skips the concept — the index
advances by one unconditionally (also past the last index; there is no
transition to AwaitingRating on failure at the last concept) and the quiz
stays alive; an LLM error instead abandons the whole quiz: quiz mode is
reset and the quiz state is dropped. -/
theorem quiz_generation_failure_amended
    (s : SessionState) (qs : QuizMachineState) (gen : GenOutcome) (click : Click)
    (hqs : s.quiz_state = some qs) (hact : quiz_active s = true)
    (hrate : s.awaiting_rating = false) (hans : qs.answered = false)
    (hlim : s.message_count < MAX_MESSAGES_PER_SESSION) (hload : qs.loading = true)
    (hidx : qs.current_index < qs.concepts.length) :
    (gen = .returned none →
      (appStep s gen click).1.quiz_state = some (advance_quiz qs) ∧
      (advance_quiz qs).current_index = qs.current_index + 1 ∧
      (appStep s gen click).1.quiz_mode = s.quiz_mode ∧
      (appStep s gen click).1.awaiting_rating = false) ∧
    ((gen = .modelHttpError ∨ gen = .otherError) →
      (appStep s gen click).1.quiz_mode = false ∧
      (appStep s gen click).1.quiz_state = none) := by
  have hc : check_message_limit s = false := by
    unfold check_message_limit
    exact decide_eq_false (by omega)
  have hcond : (quiz_active s && !s.awaiting_rating) = true := by
    rw [hact, hrate]
    rfl
  have hget : qs.concepts[qs.current_index]? = some qs.concepts[qs.current_index] :=
    List.getElem?_eq_getElem hidx
  constructor
  · intro hgen
    subst hgen
    have hstep : (appStep s (.returned none) click).1 =
        { s with quiz_state := some (advance_quiz qs) } := by
      simp [appStep, hcond, hqs, hans, render_quiz_question, hc, hload, hget]
    rw [hstep]
    exact ⟨rfl, rfl, rfl, hrate⟩
  · rintro (hgen | hgen) <;> subst hgen <;>
      constructor <;>
      simp [appStep, hcond, hqs, hans, render_quiz_question, hc, hload, hget]

/-- Witness for C1 amended: a parse failure at the last concept of a
two-concept quiz advances the index from 1 to 2 (out of range) while the
quiz stays in quiz mode; an LLM error on the same state kills the quiz. -/
theorem quiz_generation_failure_amended_witness :
    (appStep (runApp (start_quiz_session [sampleConceptA, sampleConceptB] 0)
        [(.returned none, .idle)]) (.returned none) .idle).1.quiz_state =
      some (advance_quiz (advance_quiz
        (create_initial_quiz_state [sampleConceptA, sampleConceptB]))) ∧
    (appStep (runApp (start_quiz_session [sampleConceptA, sampleConceptB] 0)
        [(.returned none, .idle)]) .modelHttpError .idle).1.quiz_state = none := by
  have h := quiz_generation_failure_amended
    (runApp (start_quiz_session [sampleConceptA, sampleConceptB] 0) [(.returned none, .idle)])
    (advance_quiz (create_initial_quiz_state [sampleConceptA, sampleConceptB]))
    (.returned none) .idle (by decide) (by decide) (by decide) (by decide)
    (by decide) (by decide) (by decide)
  have h2 := quiz_generation_failure_amended
    (runApp (start_quiz_session [sampleConceptA, sampleConceptB] 0) [(.returned none, .idle)])
    (advance_quiz (create_initial_quiz_state [sampleConceptA, sampleConceptB]))
    .modelHttpError .idle (by decide) (by decide) (by decide) (by decide)
    (by decide) (by decide) (by decide)
  exact ⟨(h.1 rfl).1, (h2.2 (Or.inl rfl)).2⟩

/-! ## Helper lemmas for concept extraction -/

theorem contains_false_not_mem {l : List (List Char)} {a : List Char}
    (h : l.contains a = false) : a ∉ l := by
  intro hmem
  rw [List.contains, List.elem_iff.mpr hmem] at h
  simp at h

theorem dedupByName_spec (l : List (String × String)) :
    ∀ seen : List (List Char),
      (∀ p ∈ dedupByName l seen, seen.contains (lowerStr p.1) = false) ∧
      List.Pairwise (fun p q => lowerStr p.1 ≠ lowerStr q.1) (dedupByName l seen) := by
  induction l with
  | nil => intro seen; simp [dedupByName]
  | cons hd rest ih =>
      intro seen
      obtain ⟨name, cat⟩ := hd
      cases hc : seen.contains (lowerStr name) with
      | true =>
          rw [dedupByName, if_pos hc]
          exact ih seen
      | false =>
          rw [dedupByName, if_neg (by rw [hc]; simp)]
          constructor
          · intro p hp
            rcases List.mem_cons.mp hp with rfl | hp'
            · exact hc
            · have h2 := (ih (lowerStr name :: seen)).1 p hp'
              rw [List.contains_cons] at h2
              exact (Bool.or_eq_false_iff.mp h2).2
          · refine List.Pairwise.cons ?_ (ih (lowerStr name :: seen)).2
            intro q hq
            have h2 := (ih (lowerStr name :: seen)).1 q hq
            rw [List.contains_cons] at h2
            have h3 := (Bool.or_eq_false_iff.mp h2).1
            intro heq
            rw [heq] at h3
            simp at h3


theorem dedupByName_sublist (l : List (String × String)) :
    ∀ seen : List (List Char), List.Sublist (dedupByName l seen) l := by
  induction l with
  | nil => intro seen; rw [dedupByName]
  | cons hd rest ih =>
      intro seen
      obtain ⟨name, cat⟩ := hd
      cases hc : seen.contains (lowerStr name) with
      | true =>
          rw [dedupByName, if_pos hc]
          exact List.Sublist.cons _ (ih seen)
      | false =>
          rw [dedupByName, if_neg (by rw [hc]; simp)]
          exact List.Sublist.cons₂ _ (ih (lowerStr name :: seen))

theorem mem_foundPairs {pred : String → Bool} :
    ∀ {table : List (String × List String)} {p : String × String},
      p ∈ foundPairs pred table →
      ∃ cat kws, (cat, kws) ∈ table ∧ p.1 ∈ kws ∧ pred p.1 = true ∧ p.2 = cat := by
  intro table
  induction table with
  | nil => intro p hp; rw [foundPairs] at hp; cases hp
  | cons hd rest ih =>
      obtain ⟨cat, kws⟩ := hd
      intro p hp
      rw [foundPairs] at hp
      rcases List.mem_append.mp hp with h | h
      · rcases List.mem_filterMap.mp h with ⟨kw, hkw, hg⟩
        cases hpred : pred kw with
        | true =>
            rw [if_pos hpred] at hg
            injection hg with hg
            subst hg
            exact ⟨cat, kws, List.mem_cons_self _ _, hkw, hpred, rfl⟩
        | false =>
            rw [if_neg (by simp [hpred])] at hg
            cases hg
      · rcases ih h with ⟨c, k, hmem, hkw, hpred, hcat⟩
        exact ⟨c, k, List.mem_cons_of_mem _ hmem, hkw, hpred, hcat⟩

theorem foundPairs_mem_intro {pred : String → Bool} {cat kw : String}
    {kws : List String} :
    ∀ {table : List (String × List String)}, (cat, kws) ∈ table → kw ∈ kws →
      pred kw = true → (kw, cat) ∈ foundPairs pred table := by
  intro table
  induction table with
  | nil => intro h; intro _ _; cases h
  | cons hd rest ih =>
      intro hmem hkw hpred
      obtain ⟨c, ks⟩ := hd
      rw [foundPairs]
      rcases List.mem_cons.mp hmem with heq | hmem'
      · injection heq with h1 h2
        subst h1
        subst h2
        refine List.mem_append.mpr (Or.inl ?_)
        exact List.mem_filterMap.mpr ⟨kw, hkw, by rw [if_pos hpred]⟩
      · exact List.mem_append.mpr (Or.inr (ih hmem' hkw hpred))

/-! ## Claim C8 -/

/-- Claim C8: for every input text, `extract_concepts` returns no two
names that agree case-insensitively, and every returned name is,
character for character, a keyword of the fixed `CONCEPT_KEYWORDS`
table. -/
theorem extract_concepts_sound (text : List Char) :
    List.Pairwise (fun p q => lowerStr p.1 ≠ lowerStr q.1) (extract_concepts text) ∧
    ∀ p ∈ extract_concepts text,
      ∃ cat kws, (cat, kws) ∈ CONCEPT_KEYWORDS ∧ p.1 ∈ kws := by
  constructor
  · exact (dedupByName_spec _ []).2
  · intro p hp
    rw [extract_concepts] at hp
    have hp' := (dedupByName_sublist _ []).subset hp
    rcases mem_foundPairs hp' with ⟨cat, kws, hmem, hkw, _, _⟩
    exact ⟨cat, kws, hmem, hkw⟩

/-- Witness for C8: a concrete text mentioning firewall twice in
different case yields pairwise case-insensitively distinct names, and
the returned firewall pair's name is verbatim in the table. -/
theorem extract_concepts_sound_witness :
    List.Pairwise (fun p q => lowerStr p.1 ≠ lowerStr q.1)
      (extract_concepts "Firewall basics: a firewall filters".toList) ∧
    ∃ cat kws, (cat, kws) ∈ CONCEPT_KEYWORDS ∧ "firewall" ∈ kws := by
  refine ⟨(extract_concepts_sound "Firewall basics: a firewall filters".toList).1, ?_⟩
  have hmem : ("firewall", "Network Security") ∈
      extract_concepts "Firewall basics: a firewall filters".toList := by decide
  exact (extract_concepts_sound "Firewall basics: a firewall filters".toList).2
    ("firewall", "Network Security") hmem

/-! ## Helper lemmas for the table-order claim -/

theorem beq_symm_false {a b : List Char} (h : (a == b) = false) : (b == a) = false := by
  cases hx : b == a
  · rfl
  · rw [eq_of_beq hx] at h
    simp at h

theorem filterMap_guard_sublist (pred : String → Bool) (cat : String) :
    ∀ kws : List String,
      List.Sublist (kws.filterMap (fun kw => if pred kw then some (kw, cat) else none))
        (kws.filterMap (fun kw => if (fun _ : String => true) kw then some (kw, cat) else none)) := by
  intro kws
  induction kws with
  | nil => simp
  | cons kw rest ih =>
      rw [List.filterMap_cons, List.filterMap_cons]
      cases hpred : pred kw with
      | true => exact List.Sublist.cons₂ _ ih
      | false => exact List.Sublist.cons _ ih

theorem foundPairs_sublist_true (pred : String → Bool) :
    ∀ table, List.Sublist (foundPairs pred table) (foundPairs (fun _ => true) table) := by
  intro table
  induction table with
  | nil => rw [foundPairs]; exact List.Sublist.refl _
  | cons hd rest ih =>
      obtain ⟨cat, kws⟩ := hd
      rw [foundPairs, foundPairs]
      exact List.Sublist.append (filterMap_guard_sublist pred cat kws) ih

theorem find?_filterMap_guard_none (kws : List String) (cat : String) (pred : String → Bool)
    (key : List Char) (h : ∀ kw ∈ kws, (lowerStr kw == key) = false) :
    List.find? (fun p => lowerStr p.1 == key)
      (kws.filterMap (fun kw => if pred kw then some (kw, cat) else none)) = none := by
  rw [List.find?_eq_none]
  intro p hp
  rcases List.mem_filterMap.mp hp with ⟨kw, hkw, hg⟩
  cases hpred : pred kw with
  | true =>
      rw [if_pos hpred] at hg
      injection hg with hg
      subst hg
      simp [h kw hkw]
  | false =>
      rw [if_neg (by simp [hpred])] at hg
      cases hg

theorem find?_filterMap_guard_split (pre post : List String) (e cat : String)
    (pred : String → Bool) (key : List Char)
    (hin : (lowerStr e == key) = true)
    (hpre : ∀ kw ∈ pre, (lowerStr kw == key) = false)
    (hpost : ∀ kw ∈ post, (lowerStr kw == key) = false) :
    List.find? (fun p => lowerStr p.1 == key)
      ((pre ++ e :: post).filterMap (fun kw => if pred kw then some (kw, cat) else none)) =
      if pred e then some (e, cat) else none := by
  rw [List.filterMap_append, List.find?_append,
      find?_filterMap_guard_none pre cat pred key hpre, Option.none_or,
      List.filterMap_cons]
  cases hpred : pred e with
  | true => exact List.find?_cons_of_pos _ hin
  | false => exact find?_filterMap_guard_none post cat pred key hpost

theorem dedupByName_mem_find (l : List (String × String)) :
    ∀ (seen : List (List Char)) (p : String × String), p ∈ dedupByName l seen →
      seen.contains (lowerStr p.1) = false ∧
      List.find? (fun q => lowerStr q.1 == lowerStr p.1) l = some p := by
  induction l with
  | nil => intro seen p hp; rw [dedupByName] at hp; cases hp
  | cons hd rest ih =>
      intro seen p hp
      obtain ⟨name, cat⟩ := hd
      cases hc : seen.contains (lowerStr name) with
      | true =>
          rw [dedupByName, if_pos hc] at hp
          have h2 := ih seen p hp
          have hne : (lowerStr name == lowerStr p.1) = false := by
            cases hx : (lowerStr name == lowerStr p.1)
            · rfl
            · rw [eq_of_beq hx] at hc
              rw [hc] at h2
              exact absurd h2.1 (by simp)
          refine ⟨h2.1, ?_⟩
          rw [List.find?_cons_of_neg _ (by simpa using hne)]
          exact h2.2
      | false =>
          rw [dedupByName, if_neg (by rw [hc]; simp)] at hp
          rcases List.mem_cons.mp hp with rfl | hp'
          · refine ⟨hc, ?_⟩
            exact List.find?_cons_of_pos _ (by simp)
          · have h2 := ih (lowerStr name :: seen) p hp'
            have hc2 := h2.1
            rw [List.contains_cons] at hc2
            obtain ⟨hne, hseen⟩ := Bool.or_eq_false_iff.mp hc2
            refine ⟨hseen, ?_⟩
            rw [List.find?_cons_of_neg _ (by simpa using beq_symm_false hne)]
            exact h2.2

theorem dedupByName_find_mem (l : List (String × String)) :
    ∀ (seen : List (List Char)) (p : String × String),
      List.find? (fun q => lowerStr q.1 == lowerStr p.1) l = some p →
      seen.contains (lowerStr p.1) = false →
      p ∈ dedupByName l seen := by
  induction l with
  | nil =>
      intro seen p hfind _
      rw [List.find?_nil] at hfind
      cases hfind
  | cons hd rest ih =>
      intro seen p hfind hseen
      obtain ⟨name, cat⟩ := hd
      cases htest : (lowerStr name == lowerStr p.1) with
      | true =>
          rw [List.find?_cons_of_pos _ (by simpa using htest)] at hfind
          injection hfind with hfind
          have heq : lowerStr name = lowerStr p.1 := eq_of_beq htest
          rw [dedupByName, if_neg (by rw [heq, hseen]; simp)]
          rw [hfind]
          exact List.mem_cons_self _ _
      | false =>
          rw [List.find?_cons_of_neg _ (by simpa using htest)] at hfind
          rw [dedupByName]
          cases hc : seen.contains (lowerStr name) with
          | true => exact ih seen p hfind hseen
          | false =>
              refine List.mem_cons_of_mem _ (ih _ p hfind ?_)
              rw [List.contains_cons, Bool.or_eq_false_iff]
              exact ⟨beq_symm_false htest, hseen⟩

/-- The first pair keyed (case-insensitively) "exploit" that the
extraction loop emits is the Malware one: in table order the Malware
category precedes Vulnerabilities, the only two categories listing the
keyword. -/
theorem find?_exploit (pred : String → Bool) :
    List.find? (fun p => lowerStr p.1 == lowerStr "exploit") (foundPairs pred CONCEPT_KEYWORDS) =
      if pred "exploit" then some ("exploit", "Malware") else none := by
  have h1 : ∀ kw ∈ ["IOC", "indicator of compromise", "threat feed", "STIX", "TAXII",
      "threat actor", "APT", "advanced persistent threat", "TTP",
      "tactics techniques procedures", "campaign", "threat hunting"],
      (lowerStr kw == lowerStr "exploit") = false := by decide
  have h2 : ∀ kw ∈ ["hash", "hashing", "MD5", "SHA", "SHA-256", "SHA-1",
      "encryption", "decryption", "AES", "RSA", "symmetric", "asymmetric",
      "public key", "private key", "certificate", "TLS", "SSL", "PKI",
      "digital signature", "cipher", "plaintext", "ciphertext"],
      (lowerStr kw == lowerStr "exploit") = false := by decide
  have h3 : ∀ kw ∈ ["firewall", "IDS", "IPS", "intrusion detection", "intrusion prevention",
      "VPN", "proxy", "DMZ", "network segmentation", "VLAN",
      "packet", "protocol", "TCP", "UDP", "IP address", "port",
      "DNS", "DHCP", "NAT", "router", "switch"],
      (lowerStr kw == lowerStr "exploit") = false := by decide
  have hMpre : ∀ kw ∈ ["malware", "virus", "worm", "trojan", "ransomware", "spyware",
      "adware", "rootkit", "botnet", "backdoor", "keylogger", "payload"],
      (lowerStr kw == lowerStr "exploit") = false := by decide
  have hMpost : ∀ kw ∈ ["zero-day", "0day"],
      (lowerStr kw == lowerStr "exploit") = false := by decide
  have h5 : ∀ kw ∈ ["authentication", "authorization", "MFA", "2FA", "multi-factor",
      "password", "credential", "SSO", "single sign-on", "OAuth",
      "SAML", "token", "session", "identity", "IAM", "RBAC"],
      (lowerStr kw == lowerStr "exploit") = false := by decide
  have h6 : ∀ kw ∈ ["NIST", "MITRE ATT&CK", "ATT&CK", "ISO 27001", "CIS Controls",
      "SOC 2", "PCI DSS", "HIPAA", "GDPR", "compliance",
      "framework", "standard", "policy", "procedure", "control"],
      (lowerStr kw == lowerStr "exploit") = false := by decide
  have h7 : ∀ kw ∈ ["incident response", "IR", "forensics", "DFIR", "triage",
      "containment", "eradication", "recovery", "lessons learned",
      "playbook", "SIEM", "SOC", "security operations", "alert"],
      (lowerStr kw == lowerStr "exploit") = false := by decide
  have hVpre : ∀ kw ∈ ["vulnerability", "CVE", "patch"],
      (lowerStr kw == lowerStr "exploit") = false := by decide
  have hVpost : ∀ kw ∈ ["buffer overflow", "SQL injection", "XSS", "cross-site scripting",
      "CSRF", "RCE", "remote code execution", "privilege escalation",
      "OWASP", "penetration testing", "pentest", "bug bounty"],
      (lowerStr kw == lowerStr "exploit") = false := by decide
  have h9 : ∀ kw ∈ ["cloud security", "AWS", "Azure", "GCP", "S3 bucket",
      "IAM policy", "security group", "container", "Docker", "Kubernetes",
      "serverless", "shared responsibility", "cloud native"],
      (lowerStr kw == lowerStr "exploit") = false := by decide
  have h10 : ∀ kw ∈ ["phishing", "spear phishing", "vishing", "smishing", "pretexting",
      "social engineering", "baiting", "tailgating", "impersonation",
      "business email compromise", "BEC"],
      (lowerStr kw == lowerStr "exploit") = false := by decide
  have hMsplit : (["malware", "virus", "worm", "trojan", "ransomware", "spyware",
      "adware", "rootkit", "botnet", "backdoor", "keylogger",
      "payload", "exploit", "zero-day", "0day"] : List String) =
      ["malware", "virus", "worm", "trojan", "ransomware", "spyware",
       "adware", "rootkit", "botnet", "backdoor", "keylogger", "payload"] ++
      "exploit" :: ["zero-day", "0day"] := rfl
  have hVsplit : (["vulnerability", "CVE", "patch", "exploit", "buffer overflow",
      "SQL injection", "XSS", "cross-site scripting", "CSRF",
      "RCE", "remote code execution", "privilege escalation",
      "OWASP", "penetration testing", "pentest", "bug bounty"] : List String) =
      ["vulnerability", "CVE", "patch"] ++
      "exploit" :: ["buffer overflow", "SQL injection", "XSS", "cross-site scripting",
        "CSRF", "RCE", "remote code execution", "privilege escalation",
        "OWASP", "penetration testing", "pentest", "bug bounty"] := rfl
  simp only [CONCEPT_KEYWORDS, foundPairs, List.append_nil, List.find?_append]
  rw [find?_filterMap_guard_none _ _ _ _ h1, Option.none_or,
      find?_filterMap_guard_none _ _ _ _ h2, Option.none_or,
      find?_filterMap_guard_none _ _ _ _ h3, Option.none_or,
      hMsplit,
      find?_filterMap_guard_split _ _ _ _ _ _ (by decide) hMpre hMpost]
  cases hpred : pred "exploit" with
  | true => simp [Option.or]
  | false =>
      simp only [Bool.false_eq_true, if_false]
      rw [Option.none_or,
          find?_filterMap_guard_none _ _ _ _ h5, Option.none_or,
          find?_filterMap_guard_none _ _ _ _ h6, Option.none_or,
          find?_filterMap_guard_none _ _ _ _ h7, Option.none_or,
          hVsplit,
          find?_filterMap_guard_split _ _ _ _ _ _ (by decide) hVpre hVpost]
      rw [hpred]
      simp only [Bool.false_eq_true, if_false]
      rw [Option.none_or,
          find?_filterMap_guard_none _ _ _ _ h9, Option.none_or,
          find?_filterMap_guard_none _ _ _ _ h10]

/-! ## Claim C10 -/

/-- Claim C10: the pairs `extract_concepts` returns follow the fixed
table's iteration order (a sublist of the flattened table, independent
of where the keywords sit in the input), and the keyword "exploit",
listed under both Malware and Vulnerabilities, is always returned with
Malware, the category listed first. -/
theorem extract_concepts_table_order (text : List Char) :
    List.Sublist (extract_concepts text) tableIterationOrder ∧
    (∀ cat, ("exploit", cat) ∈ extract_concepts text → cat = "Malware") ∧
    (containsSeq (lowerStr "exploit") (lowerChars text) = true →
      ("exploit", "Malware") ∈ extract_concepts text) := by
  refine ⟨?_, ?_, ?_⟩
  · rw [extract_concepts, tableIterationOrder]
    exact (dedupByName_sublist _ []).trans (foundPairs_sublist_true _ CONCEPT_KEYWORDS)
  · intro cat hmem
    rw [extract_concepts] at hmem
    have h := (dedupByName_mem_find _ [] _ hmem).2
    have h' : List.find? (fun q => lowerStr q.1 == lowerStr "exploit")
        (foundPairs (fun kw => containsSeq (lowerStr kw) (lowerChars text))
          CONCEPT_KEYWORDS) = some ("exploit", cat) := h
    rw [find?_exploit] at h'
    cases hpred : containsSeq (lowerStr "exploit") (lowerChars text) with
    | true =>
        rw [if_pos (by simpa using hpred)] at h'
        injection h' with h'
        exact ((Prod.mk.injEq _ _ _ _).mp h').2.symm
    | false =>
        rw [if_neg (by simp [hpred])] at h'
        cases h'
  · intro hcont
    rw [extract_concepts]
    apply dedupByName_find_mem
    · have h := find?_exploit (fun kw => containsSeq (lowerStr kw) (lowerChars text))
      rw [if_pos (by simpa using hcont)] at h
      exact h
    · rfl

/-- Witness for C10: the text "an exploit kit" contains the keyword, and
the returned pair carries the Malware category. -/
theorem extract_concepts_table_order_witness :
    containsSeq (lowerStr "exploit") (lowerChars "an exploit kit".toList) = true ∧
    ("exploit", "Malware") ∈ extract_concepts "an exploit kit".toList := by
  refine ⟨by decide, ?_⟩
  exact (extract_concepts_table_order "an exploit kit".toList).2.2 (by decide)

/-! ## Helper lemmas for the parser claims -/

theorem searchLit_some_contains {α : Type} {lit : List Char} {m : List Char → Option α}
    {r : α} : ∀ {text : List Char}, searchLit lit m text = some r →
      containsSeq lit text = true := by
  intro text
  induction text with
  | nil => intro h; rw [searchLit] at h; cases h
  | cons c rest ih =>
      intro h
      rw [searchLit] at h
      rw [containsSeq]
      cases hif : (if lit.isPrefixOf (c :: rest) = true
          then m ((c :: rest).drop lit.length) else none) with
      | some x =>
          cases hpre : lit.isPrefixOf (c :: rest) with
          | true => simp
          | false => rw [if_neg (by simp [hpre])] at hif; cases hif
      | none =>
          rw [hif] at h
          rw [ih h]
          simp

theorem searchLit_some_exists {α : Type} {lit : List Char} {m : List Char → Option α}
    {r : α} : ∀ {text : List Char}, searchLit lit m text = some r →
      ∃ cs, m cs = some r := by
  intro text
  induction text with
  | nil => intro h; rw [searchLit] at h; cases h
  | cons c rest ih =>
      intro h
      rw [searchLit] at h
      cases hif : (if lit.isPrefixOf (c :: rest) = true
          then m ((c :: rest).drop lit.length) else none) with
      | some x =>
          rw [hif] at h
          injection h with h
          subst h
          cases hpre : lit.isPrefixOf (c :: rest) with
          | true =>
              rw [if_pos hpre] at hif
              exact ⟨_, hif⟩
          | false => rw [if_neg (by simp [hpre])] at hif; cases hif
      | none =>
          rw [hif] at h
          exact ih h

theorem matchCorrectAt_shape {cs : List Char} {c : Char}
    (h : matchCorrectAt cs = some c) :
    c = 'A' ∨ c = 'B' ∨ c = 'C' ∨ c = 'D' := by
  cases hdrop : cs.dropWhile isPySpace with
  | nil => rw [matchCorrectAt, hdrop] at h; cases h
  | cons c0 tail =>
      have hred : matchCorrectAt cs =
          (if c0 = 'A' || c0 = 'B' || c0 = 'C' || c0 = 'D' then some c0 else none) := by
        rw [matchCorrectAt, hdrop]
      rw [hred] at h
      cases htest : (c0 = 'A' || c0 = 'B' || c0 = 'C' || c0 = 'D') with
      | true =>
          rw [if_pos (by simpa using htest)] at h
          injection h with h
          subst h
          have := htest
          simp only [Bool.or_eq_true, decide_eq_true_eq] at this
          tauto
      | false =>
          rw [if_neg (by simp [htest])] at h
          cases h

theorem findCorrectLetter_shape {text : List Char} {c : Char}
    (h : findCorrectLetter text = some c) :
    c = 'A' ∨ c = 'B' ∨ c = 'C' ∨ c = 'D' := by
  rcases searchLit_some_exists h with ⟨cs, hcs⟩
  exact matchCorrectAt_shape hcs

theorem filterMap_full {α β : Type} (f : α → Option β) (g : β → α)
    (hg : ∀ a b, f a = some b → g b = a) :
    ∀ xs : List α, (xs.filterMap f).length = xs.length →
      (xs.filterMap f).map g = xs := by
  intro xs
  induction xs with
  | nil => intro _; simp
  | cons x rest ih =>
      intro hlen
      cases hf : f x with
      | some b =>
          rw [List.filterMap_cons, hf] at hlen ⊢
          simp only [List.map_cons, List.length_cons] at hlen ⊢
          rw [hg x b hf, ih (by omega)]
      | none =>
          exfalso
          rw [List.filterMap_cons, hf] at hlen
          have hle := List.length_filterMap_le f rest
          simp only [List.length_cons] at hlen
          omega

theorem options_keys_of_length_four {text : List Char}
    (hlen : (quizLetters.filterMap
      (fun l => (parseOption l text).map (fun t => (l, t)))).length = 4) :
    (quizLetters.filterMap
      (fun l => (parseOption l text).map (fun t => (l, t)))).map Prod.fst = quizLetters := by
  refine filterMap_full _ _ ?_ quizLetters hlen
  intro a b hab
  rcases Option.map_eq_some'.mp hab with ⟨t, _, hb⟩
  rw [← hb]

theorem parse_some_spec {text : List Char} {r : QuizData}
    (h : parse_quiz_response text = some r) :
    findCorrectLetter text = some r.correct ∧
    r.options.map Prod.fst = quizLetters ∧
    (r.correct = 'A' ∨ r.correct = 'B' ∨ r.correct = 'C' ∨ r.correct = 'D') := by
  unfold parse_quiz_response at h
  split at h
  · cases h
  · simp only [] at h
    split at h
    case isTrue hlen =>
        split at h
        · cases h
        case _ correct hfind =>
            split at h
            · cases h
            case _ ce hce =>
                injection h with h
                subst h
                exact ⟨hfind, options_keys_of_length_four hlen,
                  findCorrectLetter_shape hfind⟩
    case isFalse => cases h

/-! ## Claim C6 -/

/-- Claim C6: an input with no CORRECT: marker anywhere makes
`parse_quiz_response` return no result.  (The embedding is a total
function, which models the fact that the Python body never raises: the
regex calls are total and the whole body sits in a catch-all
try/except.) -/
theorem parse_missing_correct_returns_none (text : List Char)
    (h : containsSeq "CORRECT:".toList text = false) :
    parse_quiz_response text = none := by
  cases hp : parse_quiz_response text with
  | none => rfl
  | some r =>
      have hfind := (parse_some_spec hp).1
      rw [findCorrectLetter] at hfind
      have hcontains := searchLit_some_contains hfind
      rw [h] at hcontains
      cases hcontains

/-- Witness for C6: a concrete reply without a CORRECT: line parses to
no result. -/
theorem parse_missing_correct_returns_none_witness :
    containsSeq "CORRECT:".toList "QUESTION: what\nA) x\nB) y\nC) z\nD) w".toList = false ∧
    parse_quiz_response "QUESTION: what\nA) x\nB) y\nC) z\nD) w".toList = none := by
  refine ⟨by decide, ?_⟩
  exact parse_missing_correct_returns_none _ (by decide)

/-! ## Success of the matchers on a template-shaped response -/

theorem isPrefixOf_append_self (l w : List Char) : l.isPrefixOf (l ++ w) = true := by
  induction l with
  | nil => simp [List.isPrefixOf]
  | cons x xs ih => simp [List.isPrefixOf, ih]

theorem lazyCapture_isSome_of (look : List Char → Bool) :
    ∀ (cs : List Char) (k : Nat), 1 ≤ k → k ≤ cs.length →
      look (cs.drop k) = true → (lazyCapture look cs).isSome = true := by
  intro cs
  induction cs with
  | nil =>
      intro k h1 h2 _
      simp at h2
      omega
  | cons c rest ih =>
      intro k h1 h2 h3
      rw [lazyCapture]
      cases hlook : look rest with
      | true => simp
      | false =>
          rw [if_neg (by simp)]
          cases k with
          | zero => omega
          | succ k1 =>
              cases k1 with
              | zero =>
                  rw [List.drop_succ_cons, List.drop_zero] at h3
                  rw [hlook] at h3
                  cases h3
              | succ k2 =>
                  rw [List.drop_succ_cons] at h3
                  simp only [List.length_cons] at h2
                  have hrest := ih (k2 + 1) (by omega) (by omega) h3
                  cases hlc : lazyCapture look rest with
                  | some t => rfl
                  | none => rw [hlc] at hrest; cases hrest

theorem wsLazy_isSome (look : List Char → Bool) (cs : List Char)
    (h : (lazyCapture look cs).isSome = true) :
    ∀ n, (wsLazy look cs n).isSome = true := by
  intro n
  induction n with
  | zero => rw [wsLazy, ← List.drop_zero cs]; exact h
  | succ n1 ih =>
      rw [wsLazy]
      cases hfirst : lazyCapture look (cs.drop (n1 + 1)) with
      | some t => rfl
      | none => exact ih

theorem matchWsLazy_isSome (look : List Char → Bool) (cs : List Char)
    (k : Nat) (h1 : 1 ≤ k) (h2 : k ≤ cs.length) (h3 : look (cs.drop k) = true) :
    (matchWsLazy look cs).isSome = true := by
  rw [matchWsLazy]
  exact wsLazy_isSome look cs (lazyCapture_isSome_of look cs k h1 h2 h3) _

theorem searchLit_isSome_of {α : Type} (lit : List Char) (m : List Char → Option α)
    (hlit : lit ≠ []) :
    ∀ (u v : List Char), (m v).isSome = true →
      (searchLit lit m (u ++ lit ++ v)).isSome = true := by
  intro u
  induction u with
  | nil =>
      intro v hv
      rw [List.nil_append]
      cases lit with
      | nil => exact absurd rfl hlit
      | cons x lit1 =>
          rw [List.cons_append, searchLit]
          have hpre := isPrefixOf_append_self (x :: lit1) v
          rw [List.cons_append] at hpre
          rw [if_pos hpre]
          have hdrop := List.drop_left (x :: lit1) v
          rw [List.cons_append] at hdrop
          rw [hdrop]
          cases hm : m v with
          | some r => rfl
          | none => rw [hm] at hv; cases hv
  | cons x u1 ih =>
      intro v hv
      have hshape : (x :: u1) ++ lit ++ v = x :: (u1 ++ lit ++ v) := by simp
      rw [hshape, searchLit]
      cases hif : (if lit.isPrefixOf (x :: (u1 ++ lit ++ v)) = true
          then m ((x :: (u1 ++ lit ++ v)).drop lit.length) else none) with
      | some r => rfl
      | none => exact ih v hv

/-! ## Claim C5 -/

/-- Claim C5: a response in the exact template shape — QUESTION line,
A) to D) option lines, a CORRECT line naming a letter of A-D, a
CORRECT_EXPLANATION line and the four per-letter explanation lines —
parses successfully, and the result carries exactly the four option
keys A, B, C, D and a correct letter among A-D.  The option texts, the
question and the explanations are arbitrary character sequences. -/
theorem parse_wellformed_response (q a b c d : List Char) (corr : Char)
    (cexp ea eb ec ed : List Char)
    (hcorr : corr = 'A' ∨ corr = 'B' ∨ corr = 'C' ∨ corr = 'D') :
    ∃ r, parse_quiz_response (mkResponse q a b c d corr cexp ea eb ec ed) = some r ∧
      r.options.map Prod.fst = quizLetters ∧
      (r.correct = 'A' ∨ r.correct = 'B' ∨ r.correct = 'C' ∨ r.correct = 'D') := by
  have hQsome : (searchLit "QUESTION:".toList (fun cs => matchWsLazy lookQuestionEnd cs)
      (mkResponse q a b c d corr cexp ea eb ec ed)).isSome = true := by
    have htext : mkResponse q a b c d corr cexp ea eb ec ed =
        [] ++ "QUESTION:".toList ++ ((" ".toList ++ q) ++
          ("\nA) ".toList ++ (a ++ respAfterA b c d corr cexp ea eb ec ed))) := by
      rw [mkResponse, show "QUESTION: ".toList = "QUESTION:".toList ++ " ".toList from rfl]
      simp [List.append_assoc]
    rw [htext]
    refine searchLit_isSome_of _ _ (by simp) _ _ ?_
    refine matchWsLazy_isSome _ _ (" ".toList ++ q).length ?_ ?_ ?_
    · have h1 : (" ".toList).length = 1 := rfl
      simp only [List.length_append, h1]
      omega
    · simp only [List.length_append]
      omega
    · rw [List.drop_left]
      rfl
  have hAsearch : (searchLit ['A', ')'] (fun cs => matchWsLazy lookOptionEnd cs)
      (mkResponse q a b c d corr cexp ea eb ec ed)).isSome = true := by
    have htext : mkResponse q a b c d corr cexp ea eb ec ed =
        ("QUESTION: ".toList ++ q ++ "\n".toList) ++ ['A', ')'] ++
          ((" ".toList ++ a) ++ respAfterA b c d corr cexp ea eb ec ed) := by
      rw [mkResponse, show "\nA) ".toList = "\n".toList ++ (['A', ')'] ++ " ".toList) from rfl]
      simp [List.append_assoc]
    rw [htext]
    refine searchLit_isSome_of _ _ (by simp) _ _ ?_
    refine matchWsLazy_isSome _ _ (" ".toList ++ a).length ?_ ?_ ?_
    · have h1 : (" ".toList).length = 1 := rfl
      simp only [List.length_append, h1]
      omega
    · simp only [List.length_append]
      omega
    · rw [List.drop_left]
      rfl
  have hBsearch : (searchLit ['B', ')'] (fun cs => matchWsLazy lookOptionEnd cs)
      (mkResponse q a b c d corr cexp ea eb ec ed)).isSome = true := by
    have htext : mkResponse q a b c d corr cexp ea eb ec ed =
        ("QUESTION: ".toList ++ q ++ "\nA) ".toList ++ a ++ "\n".toList) ++ ['B', ')'] ++
          ((" ".toList ++ b) ++ respAfterB c d corr cexp ea eb ec ed) := by
      rw [mkResponse, respAfterA,
        show "\nB) ".toList = "\n".toList ++ (['B', ')'] ++ " ".toList) from rfl]
      simp [List.append_assoc]
    rw [htext]
    refine searchLit_isSome_of _ _ (by simp) _ _ ?_
    refine matchWsLazy_isSome _ _ (" ".toList ++ b).length ?_ ?_ ?_
    · have h1 : (" ".toList).length = 1 := rfl
      simp only [List.length_append, h1]
      omega
    · simp only [List.length_append]
      omega
    · rw [List.drop_left]
      rfl
  have hCsearch : (searchLit ['C', ')'] (fun cs => matchWsLazy lookOptionEnd cs)
      (mkResponse q a b c d corr cexp ea eb ec ed)).isSome = true := by
    have htext : mkResponse q a b c d corr cexp ea eb ec ed =
        ("QUESTION: ".toList ++ q ++ "\nA) ".toList ++ a ++ "\nB) ".toList ++ b ++
          "\n".toList) ++ ['C', ')'] ++
          ((" ".toList ++ c) ++ respAfterC d corr cexp ea eb ec ed) := by
      rw [mkResponse, respAfterA, respAfterB,
        show "\nC) ".toList = "\n".toList ++ (['C', ')'] ++ " ".toList) from rfl]
      simp [List.append_assoc]
    rw [htext]
    refine searchLit_isSome_of _ _ (by simp) _ _ ?_
    refine matchWsLazy_isSome _ _ (" ".toList ++ c).length ?_ ?_ ?_
    · have h1 : (" ".toList).length = 1 := rfl
      simp only [List.length_append, h1]
      omega
    · simp only [List.length_append]
      omega
    · rw [List.drop_left]
      rfl
  have hDsearch : (searchLit ['D', ')'] (fun cs => matchWsLazy lookOptionEnd cs)
      (mkResponse q a b c d corr cexp ea eb ec ed)).isSome = true := by
    have htext : mkResponse q a b c d corr cexp ea eb ec ed =
        ("QUESTION: ".toList ++ q ++ "\nA) ".toList ++ a ++ "\nB) ".toList ++ b ++
          "\nC) ".toList ++ c ++ "\n".toList) ++ ['D', ')'] ++
          (((" ".toList ++ d) ++ "\n".toList) ++
            ("CORRECT: ".toList ++ ([corr] ++ respAfterCorr cexp ea eb ec ed))) := by
      rw [mkResponse, respAfterA, respAfterB, respAfterC, respAfterD,
        show "\nD) ".toList = "\n".toList ++ (['D', ')'] ++ " ".toList) from rfl,
        show "\nCORRECT: ".toList = "\n".toList ++ "CORRECT: ".toList from rfl]
      simp [List.append_assoc]
    rw [htext]
    refine searchLit_isSome_of _ _ (by simp) _ _ ?_
    refine matchWsLazy_isSome _ _ ((" ".toList ++ d) ++ "\n".toList).length ?_ ?_ ?_
    · have h1 : (" ".toList).length = 1 := rfl
      have h2 : ("\n".toList).length = 1 := rfl
      simp only [List.length_append, h1, h2]
      omega
    · simp only [List.length_append]
      omega
    · rw [List.drop_left]
      rfl
  have hCorr : (findCorrectLetter (mkResponse q a b c d corr cexp ea eb ec ed)).isSome
      = true := by
    have htext : mkResponse q a b c d corr cexp ea eb ec ed =
        ("QUESTION: ".toList ++ q ++ "\nA) ".toList ++ a ++ "\nB) ".toList ++ b ++
          "\nC) ".toList ++ c ++ "\nD) ".toList ++ d ++ "\n".toList) ++
          "CORRECT:".toList ++
          (" ".toList ++ ([corr] ++ respAfterCorr cexp ea eb ec ed)) := by
      rw [mkResponse, respAfterA, respAfterB, respAfterC, respAfterD,
        show "\nCORRECT: ".toList =
          "\n".toList ++ ("CORRECT:".toList ++ " ".toList) from rfl]
      simp [List.append_assoc]
    rw [findCorrectLetter, htext]
    refine searchLit_isSome_of _ _ (by simp) _ _ ?_
    rcases hcorr with rfl | rfl | rfl | rfl <;> rfl
  have hCE : (searchLit "CORRECT_EXPLANATION:".toList
      (fun cs => matchWsLazy lookCexpEnd cs)
      (mkResponse q a b c d corr cexp ea eb ec ed)).isSome = true := by
    have htext : mkResponse q a b c d corr cexp ea eb ec ed =
        ("QUESTION: ".toList ++ q ++ "\nA) ".toList ++ a ++ "\nB) ".toList ++ b ++
          "\nC) ".toList ++ c ++ "\nD) ".toList ++ d ++ "\nCORRECT: ".toList ++
          [corr] ++ "\n".toList) ++ "CORRECT_EXPLANATION:".toList ++
          ((" ".toList ++ cexp) ++ respExps ea eb ec ed) := by
      rw [mkResponse, respAfterA, respAfterB, respAfterC, respAfterD, respAfterCorr,
        show "\nCORRECT_EXPLANATION: ".toList =
          "\n".toList ++ ("CORRECT_EXPLANATION:".toList ++ " ".toList) from rfl]
      simp [List.append_assoc]
    rw [htext]
    refine searchLit_isSome_of _ _ (by simp) _ _ ?_
    refine matchWsLazy_isSome _ _ (" ".toList ++ cexp).length ?_ ?_ ?_
    · have h1 : (" ".toList).length = 1 := rfl
      simp only [List.length_append, h1]
      omega
    · simp only [List.length_append]
      omega
    · rw [List.drop_left]
      rfl
  have hAopt : (parseOption 'A' (mkResponse q a b c d corr cexp ea eb ec ed)).isSome
      = true := by
    obtain ⟨t, ht⟩ := Option.isSome_iff_exists.mp hAsearch
    rw [parseOption, ht]
    rfl
  have hBopt : (parseOption 'B' (mkResponse q a b c d corr cexp ea eb ec ed)).isSome
      = true := by
    obtain ⟨t, ht⟩ := Option.isSome_iff_exists.mp hBsearch
    rw [parseOption, ht]
    rfl
  have hCopt : (parseOption 'C' (mkResponse q a b c d corr cexp ea eb ec ed)).isSome
      = true := by
    obtain ⟨t, ht⟩ := Option.isSome_iff_exists.mp hCsearch
    rw [parseOption, ht]
    rfl
  have hDopt : (parseOption 'D' (mkResponse q a b c d corr cexp ea eb ec ed)).isSome
      = true := by
    obtain ⟨t, ht⟩ := Option.isSome_iff_exists.mp hDsearch
    rw [parseOption, ht]
    rfl
  obtain ⟨tA, htA⟩ := Option.isSome_iff_exists.mp hAopt
  obtain ⟨tB, htB⟩ := Option.isSome_iff_exists.mp hBopt
  obtain ⟨tC, htC⟩ := Option.isSome_iff_exists.mp hCopt
  obtain ⟨tD, htD⟩ := Option.isSome_iff_exists.mp hDopt
  have hlen : (quizLetters.filterMap (fun l =>
      (parseOption l (mkResponse q a b c d corr cexp ea eb ec ed)).map
        (fun t => (l, t)))).length = 4 := by
    simp [quizLetters, List.filterMap_cons, htA, htB, htC, htD]
  cases hp : parse_quiz_response (mkResponse q a b c d corr cexp ea eb ec ed) with
  | some r =>
      have hspec := parse_some_spec hp
      exact ⟨r, rfl, hspec.2.1, hspec.2.2⟩
  | none =>
      exfalso
      obtain ⟨q1, hq1⟩ := Option.isSome_iff_exists.mp hQsome
      obtain ⟨cor, hcor1⟩ := Option.isSome_iff_exists.mp hCorr
      obtain ⟨ce, hce1⟩ := Option.isSome_iff_exists.mp hCE
      unfold parse_quiz_response at hp
      simp at hq1 hce1
      simp [hq1, hlen, hcor1, hce1] at hp

/-- Witness for C5: a concrete template-shaped response parses to a
result with the four option keys and correct letter B. -/
theorem parse_wellformed_response_witness :
    ('B' = 'A' ∨ 'B' = 'B' ∨ 'B' = 'C' ∨ 'B' = 'D') ∧
    ∃ r, parse_quiz_response (mkResponse "what is a hash".toList "a digest".toList
        "a cipher".toList "a key".toList "a port".toList 'B'
        "hashing digests".toList "no".toList "yes".toList "no".toList "no".toList) =
      some r ∧
      r.options.map Prod.fst = quizLetters ∧
      (r.correct = 'A' ∨ r.correct = 'B' ∨ r.correct = 'C' ∨ r.correct = 'D') := by
  refine ⟨by decide, ?_⟩
  exact parse_wellformed_response "what is a hash".toList "a digest".toList
    "a cipher".toList "a key".toList "a port".toList 'B'
    "hashing digests".toList "no".toList "yes".toList "no".toList "no".toList
    (by decide)

/-! ## Helper lemmas for the quiz-run invariants -/

theorem take_mono_sublist {α : Type} {m n : Nat} (l : List α) (h : m ≤ n) :
    List.Sublist (l.take m) (l.take n) := by
  have heq : (l.take n).take m = l.take m := by
    rw [List.take_take]
    congr 1
    omega
  rw [← heq]
  exact List.take_sublist _ _

theorem aligned_advance {qs : QuizMachineState} (h : resultsAligned qs) :
    resultsAligned (advance_quiz qs) := by
  rw [resultsAligned] at h ⊢
  simp only [advance_quiz, Bool.false_eq_true, if_false, Nat.add_zero]
  refine h.trans (List.Sublist.map _ ?_)
  refine take_mono_sublist _ ?_
  cases qs.answered <;> simp

theorem aligned_answer {qs : QuizMachineState} {letter : Char} {cc : ConceptRow}
    (hans : qs.answered = false) (hget : qs.concepts[qs.current_index]? = some cc)
    (h : resultsAligned qs) :
    resultsAligned { qs with
                     user_answer := some letter
                     answered := true
                     results := qs.results ++
                       [{ concept_id := cc.id, correct := [letter] == qs.correct }] } := by
  rw [resultsAligned] at h ⊢
  simp only [hans, Bool.false_eq_true, if_false, Nat.add_zero] at h
  simp only [if_true, List.map_append]
  rw [List.take_succ, List.map_append, hget]
  exact List.Sublist.append h (by simp)

theorem appStep_offbranch (s : SessionState) (gen : GenOutcome) (click : Click)
    (hcond : (quiz_active s && !s.awaiting_rating) = false) :
    (appStep s gen click).1.quiz_state = s.quiz_state ∨
    (appStep s gen click).1.quiz_state = none := by
  unfold appStep
  rw [hcond]
  simp only [Bool.false_eq_true, if_false]
  split
  · cases click <;> simp [reset_quiz_session]
  · cases click with
    | chat ok =>
        left
        cases hok : ok <;> cases hc : check_message_limit s <;> rfl
    | idle => left; rfl
    | answer letter => left; rfl
    | next => left; rfl
    | finish => left; rfl
    | rate level => left; rfl

theorem quiz_state_none_step (s : SessionState) (gen : GenOutcome) (click : Click)
    (h : s.quiz_state = none) : (appStep s gen click).1.quiz_state = none := by
  have hcond : (quiz_active s && !s.awaiting_rating) = false := by
    simp [quiz_active, h]
  rcases appStep_offbranch s gen click hcond with h2 | h2
  · rw [h2, h]
  · exact h2

theorem runApp_none (es : List (GenOutcome × Click)) :
    ∀ s : SessionState, s.quiz_state = none → (runApp s es).quiz_state = none := by
  induction es with
  | nil => intro s h; exact h
  | cons e rest ih =>
      intro s h
      rw [runApp]
      exact ih _ (quiz_state_none_step s e.1 e.2 h)

/-- Classification of one rerun's effect on a live quiz state: the quiz
state is unchanged, advanced by `advance_quiz`, filled with a generated
question, or extended by one recorded answer; exactly the last case is
an effective answer. -/
theorem appStep_quiz_classify (s : SessionState) (gen : GenOutcome) (click : Click)
    (qs qs' : QuizMachineState) (h1 : s.quiz_state = some qs)
    (h2 : (appStep s gen click).1.quiz_state = some qs') :
    (qs' = qs ∧ effective_answer s click = false) ∨
    (qs' = advance_quiz qs ∧ effective_answer s click = false) ∨
    ((∃ qd : QuizData, qs' = { qs with
        question := qd.question
        options := qd.options
        correct := [qd.correct]
        explanations := qd.explanations
        correct_explanation := qd.correct_explanation
        loading := false }) ∧ effective_answer s click = false) ∨
    (∃ (letter : Char) (cc : ConceptRow),
      qs.concepts[qs.current_index]? = some cc ∧ qs.answered = false ∧
      qs' = { qs with
              user_answer := some letter
              answered := true
              results := qs.results ++
                [{ concept_id := cc.id, correct := [letter] == qs.correct }] } ∧
      effective_answer s click = true) := by
  cases hcond : (quiz_active s && !s.awaiting_rating) with
  | false =>
      have heff : effective_answer s click = false := by
        unfold effective_answer
        rw [hcond]
        simp
      rcases appStep_offbranch s gen click hcond with h3 | h3
      · rw [h3, h1] at h2
        injection h2 with h2
        exact Or.inl ⟨h2.symm, heff⟩
      · rw [h3] at h2
        cases h2
  | true =>
      cases hans : qs.answered with
      | true =>
          have heff : effective_answer s click = false := by
            cases click <;> simp [effective_answer, h1, hans]
          have hstep : appStep s gen click = (render_quiz_result click s, false) := by
            simp [appStep, hcond, h1, hans]
          rw [hstep] at h2
          have h2' : (render_quiz_result click s).quiz_state = some qs' := h2
          cases click with
          | next =>
              by_cases hlast : qs.current_index < qs.concepts.length - 1
              · have h3 : render_quiz_result .next s =
                    { s with quiz_state := some (advance_quiz qs) } := by
                  simp [render_quiz_result, h1, hans, hlast]
                rw [h3] at h2'
                have h4 : some (advance_quiz qs) = some qs' := h2'
                injection h4 with h4
                exact Or.inr (Or.inl ⟨h4.symm, heff⟩)
              · have h3 : render_quiz_result .next s = s := by
                  simp [render_quiz_result, h1, hans, hlast]
                rw [h3, h1] at h2'
                injection h2' with h4
                exact Or.inl ⟨h4.symm, heff⟩
          | finish =>
              have h3 : render_quiz_result .finish s =
                  { s with awaiting_rating := true } := by
                simp [render_quiz_result, h1, hans]
              rw [h3] at h2'
              have h4 : s.quiz_state = some qs' := h2'
              rw [h1] at h4
              injection h4 with h4
              exact Or.inl ⟨h4.symm, heff⟩
          | idle =>
              have h3 : render_quiz_result .idle s = s := by
                simp [render_quiz_result, h1, hans]
              rw [h3, h1] at h2'
              injection h2' with h4
              exact Or.inl ⟨h4.symm, heff⟩
          | answer letter =>
              have h3 : render_quiz_result (.answer letter) s = s := by
                simp [render_quiz_result, h1, hans]
              rw [h3, h1] at h2'
              injection h2' with h4
              exact Or.inl ⟨h4.symm, heff⟩
          | rate level =>
              have h3 : render_quiz_result (.rate level) s = s := by
                simp [render_quiz_result, h1, hans]
              rw [h3, h1] at h2'
              injection h2' with h4
              exact Or.inl ⟨h4.symm, heff⟩
          | chat ok =>
              have h3 : render_quiz_result (.chat ok) s = s := by
                simp [render_quiz_result, h1, hans]
              rw [h3, h1] at h2'
              injection h2' with h4
              exact Or.inl ⟨h4.symm, heff⟩
      | false =>
          have hstep : appStep s gen click = render_quiz_question gen click s := by
            simp [appStep, hcond, h1, hans]
          rw [hstep] at h2
          by_cases hlim : check_message_limit s = true
          · have h3 : (render_quiz_question gen click s).1.quiz_state = none := by
              simp [render_quiz_question, h1, hlim]
            rw [h3] at h2
            cases h2
          · have hlimf : check_message_limit s = false := by
              cases hx : check_message_limit s
              · rfl
              · exact absurd hx hlim
            cases hload : qs.loading with
            | true =>
                have heff : effective_answer s click = false := by
                  cases click <;> simp [effective_answer, h1, hload]
                cases hget : qs.concepts[qs.current_index]? with
                | none =>
                    have h3 : render_quiz_question gen click s = (s, false) := by
                      simp [render_quiz_question, h1, hlim, hload, hget]
                    rw [h3] at h2
                    have h4 : s.quiz_state = some qs' := h2
                    rw [h1] at h4
                    injection h4 with h4
                    exact Or.inl ⟨h4.symm, heff⟩
                | some cc =>
                    cases gen with
                    | modelHttpError =>
                        have h3 : (render_quiz_question .modelHttpError click s).1.quiz_state
                            = none := by
                          simp [render_quiz_question, h1, hlim, hload, hget]
                        rw [h3] at h2
                        cases h2
                    | otherError =>
                        have h3 : (render_quiz_question .otherError click s).1.quiz_state
                            = none := by
                          simp [render_quiz_question, h1, hlim, hload, hget]
                        rw [h3] at h2
                        cases h2
                    | returned ores =>
                        cases ores with
                        | none =>
                            have h3 : render_quiz_question (.returned none) click s =
                                ({ s with quiz_state := some (advance_quiz qs) }, true) := by
                              simp [render_quiz_question, h1, hlim, hload, hget]
                            rw [h3] at h2
                            have h4 : some (advance_quiz qs) = some qs' := h2
                            injection h4 with h4
                            exact Or.inr (Or.inl ⟨h4.symm, heff⟩)
                        | some qd =>
                            have h3 : render_quiz_question (.returned (some qd)) click s =
                                ({ s with
                                    message_count := s.message_count + 1
                                    quiz_state := some { qs with
                                      question := qd.question
                                      options := qd.options
                                      correct := [qd.correct]
                                      explanations := qd.explanations
                                      correct_explanation := qd.correct_explanation
                                      loading := false } }, true) := by
                              simp [render_quiz_question, h1, hlim, hload, hget]
                            rw [h3] at h2
                            have h4 : some { qs with
                                question := qd.question
                                options := qd.options
                                correct := [qd.correct]
                                explanations := qd.explanations
                                correct_explanation := qd.correct_explanation
                                loading := false } = some qs' := h2
                            injection h4 with h4
                            rw [hans] at h4
                            exact Or.inr (Or.inr (Or.inl ⟨⟨qd, h4.symm⟩, heff⟩))
            | false =>
                cases click with
                | answer letter =>
                    cases hget : qs.concepts[qs.current_index]? with
                    | none =>
                        have heff : effective_answer s (.answer letter) = false := by
                          have hlen := List.getElem?_eq_none_iff.mp hget
                          simp [effective_answer, h1, hans, hload, hlimf, hcond]
                          omega
                        have h3 : render_quiz_question gen (.answer letter) s =
                            (s, false) := by
                          simp [render_quiz_question, h1, hlim, hload, hget]
                        rw [h3] at h2
                        have h4 : s.quiz_state = some qs' := h2
                        rw [h1] at h4
                        injection h4 with h4
                        exact Or.inl ⟨h4.symm, heff⟩
                    | some cc =>
                        have hlt : qs.current_index < qs.concepts.length := by
                          rcases List.getElem?_eq_some.mp hget with ⟨hl, _⟩
                          exact hl
                        have heff : effective_answer s (.answer letter) = true := by
                          simp [effective_answer, h1, hans, hload, hlimf, hcond, hlt]
                        have h3 : render_quiz_question gen (.answer letter) s =
                            ({ s with quiz_state := some { qs with
                                user_answer := some letter
                                answered := true
                                results := qs.results ++
                                  [{ concept_id := cc.id,
                                     correct := [letter] == qs.correct }] } }, false) := by
                          simp [render_quiz_question, h1, hlim, hload, hget]
                        rw [h3] at h2
                        have h4 : some { qs with
                            user_answer := some letter
                            answered := true
                            results := qs.results ++
                              [{ concept_id := cc.id,
                                 correct := [letter] == qs.correct }] } = some qs' := h2
                        injection h4 with h4
                        rw [hload] at h4
                        exact Or.inr (Or.inr (Or.inr ⟨letter, cc, rfl, rfl, h4.symm, heff⟩))
                | idle =>
                    have h3 : render_quiz_question gen .idle s = (s, false) := by
                      simp [render_quiz_question, h1, hlim, hload]
                    rw [h3] at h2
                    have h4 : s.quiz_state = some qs' := h2
                    rw [h1] at h4
                    injection h4 with h4
                    exact Or.inl ⟨h4.symm, by simp [effective_answer, h1]⟩
                | next =>
                    have h3 : render_quiz_question gen .next s = (s, false) := by
                      simp [render_quiz_question, h1, hlim, hload]
                    rw [h3] at h2
                    have h4 : s.quiz_state = some qs' := h2
                    rw [h1] at h4
                    injection h4 with h4
                    exact Or.inl ⟨h4.symm, by simp [effective_answer, h1]⟩
                | finish =>
                    have h3 : render_quiz_question gen .finish s = (s, false) := by
                      simp [render_quiz_question, h1, hlim, hload]
                    rw [h3] at h2
                    have h4 : s.quiz_state = some qs' := h2
                    rw [h1] at h4
                    injection h4 with h4
                    exact Or.inl ⟨h4.symm, by simp [effective_answer, h1]⟩
                | rate level =>
                    have h3 : render_quiz_question gen (.rate level) s = (s, false) := by
                      simp [render_quiz_question, h1, hlim, hload]
                    rw [h3] at h2
                    have h4 : s.quiz_state = some qs' := h2
                    rw [h1] at h4
                    injection h4 with h4
                    exact Or.inl ⟨h4.symm, by simp [effective_answer, h1]⟩
                | chat ok =>
                    have h3 : render_quiz_question gen (.chat ok) s = (s, false) := by
                      simp [render_quiz_question, h1, hlim, hload]
                    rw [h3] at h2
                    have h4 : s.quiz_state = some qs' := h2
                    rw [h1] at h4
                    injection h4 with h4
                    exact Or.inl ⟨h4.symm, by simp [effective_answer, h1]⟩

theorem appStep_aligned (s : SessionState) (gen : GenOutcome) (click : Click)
    (h : sessionAligned s) : sessionAligned (appStep s gen click).1 := by
  intro qs' hqs'
  cases hqs : s.quiz_state with
  | none =>
      rw [quiz_state_none_step s gen click hqs] at hqs'
      cases hqs'
  | some qs =>
      rcases appStep_quiz_classify s gen click qs qs' hqs hqs' with
        ⟨heq, _⟩ | ⟨heq, _⟩ | ⟨⟨qd, heq⟩, _⟩ | ⟨letter, cc, hget, hans, heq, _⟩
      · rw [heq]
        exact h qs hqs
      · rw [heq]
        exact aligned_advance (h qs hqs)
      · rw [heq]
        exact h qs hqs
      · rw [heq]
        exact aligned_answer hans hget (h qs hqs)

theorem appStep_index_mono (s : SessionState) (gen : GenOutcome) (click : Click)
    (qs qs' : QuizMachineState) (h1 : s.quiz_state = some qs)
    (h2 : (appStep s gen click).1.quiz_state = some qs') :
    qs.current_index ≤ qs'.current_index := by
  rcases appStep_quiz_classify s gen click qs qs' h1 h2 with
    ⟨heq, _⟩ | ⟨heq, _⟩ | ⟨⟨qd, heq⟩, _⟩ | ⟨letter, cc, _, _, heq, _⟩ <;>
    rw [heq] <;> simp [advance_quiz]

theorem appStep_concepts_eq (s : SessionState) (gen : GenOutcome) (click : Click)
    (qs qs' : QuizMachineState) (h1 : s.quiz_state = some qs)
    (h2 : (appStep s gen click).1.quiz_state = some qs') :
    qs'.concepts = qs.concepts := by
  rcases appStep_quiz_classify s gen click qs qs' h1 h2 with
    ⟨heq, _⟩ | ⟨heq, _⟩ | ⟨⟨qd, heq⟩, _⟩ | ⟨letter, cc, _, _, heq, _⟩ <;>
    rw [heq] <;> simp [advance_quiz]

theorem appStep_results_length (s : SessionState) (gen : GenOutcome) (click : Click)
    (qs qs' : QuizMachineState) (h1 : s.quiz_state = some qs)
    (h2 : (appStep s gen click).1.quiz_state = some qs') :
    qs'.results.length = qs.results.length +
      (if effective_answer s click = true then 1 else 0) := by
  rcases appStep_quiz_classify s gen click qs qs' h1 h2 with
    ⟨heq, heff⟩ | ⟨heq, heff⟩ | ⟨⟨qd, heq⟩, heff⟩ | ⟨letter, cc, _, _, heq, heff⟩ <;>
    rw [heq, heff] <;> simp [advance_quiz]

theorem runApp_aligned (es : List (GenOutcome × Click)) :
    ∀ s : SessionState, sessionAligned s → sessionAligned (runApp s es) := by
  induction es with
  | nil => intro s h; exact h
  | cons e rest ih =>
      intro s h
      rw [runApp]
      exact ih _ (appStep_aligned s e.1 e.2 h)

theorem runApp_concepts_results (es : List (GenOutcome × Click)) :
    ∀ (s : SessionState) (qs qs' : QuizMachineState), s.quiz_state = some qs →
      (runApp s es).quiz_state = some qs' →
      qs'.concepts = qs.concepts ∧
      qs'.results.length = qs.results.length + countAnswered s es := by
  induction es with
  | nil =>
      intro s qs qs' h1 h2
      rw [runApp] at h2
      rw [h1] at h2
      injection h2 with h2
      subst h2
      simp [countAnswered]
  | cons e rest ih =>
      intro s qs qs' h1 h2
      rw [runApp] at h2
      cases hs1 : (appStep s e.1 e.2).1.quiz_state with
      | none =>
          rw [runApp_none rest _ hs1] at h2
          cases h2
      | some qs1 =>
          have hstep := appStep_results_length s e.1 e.2 qs qs1 h1 hs1
          have hstepc := appStep_concepts_eq s e.1 e.2 qs qs1 h1 hs1
          have hih := ih _ qs1 qs' hs1 h2
          refine ⟨by rw [hih.1, hstepc], ?_⟩
          rw [hih.2, hstep, countAnswered]
          omega

/-! ## Claim C2 -/

/-- Counterexample to C2 as stated: with the two sample concepts, the
first question fails to parse (the concept is skipped) and the second is
answered, so the completed run reaches the rating screen with a results
list [concept 2] — results[0].concept_id is 2 while concepts[0].id is 1,
and the length is 1, not 2, although the budget never intervened
(message count 1 of 25). -/
theorem quiz_results_alignment_counterexample :
    (runApp (start_quiz_session [sampleConceptA, sampleConceptB] 0)
        [(.returned none, .idle), (.returned (some sampleQuizData), .idle),
         (.returned none, .answer 'A'), (.returned none, .finish)]).awaiting_rating
      = true ∧
    (resultsOf (runApp (start_quiz_session [sampleConceptA, sampleConceptB] 0)
        [(.returned none, .idle), (.returned (some sampleQuizData), .idle),
         (.returned none, .answer 'A'), (.returned none, .finish)])).map
      (fun r => r.concept_id) = [2] ∧
    ([sampleConceptA, sampleConceptB].map (fun c => c.id)) = [1, 2] ∧
    (runApp (start_quiz_session [sampleConceptA, sampleConceptB] 0)
        [(.returned none, .idle), (.returned (some sampleQuizData), .idle),
         (.returned none, .answer 'A'), (.returned none, .finish)]).message_count = 1 := by
  decide

/-- Claim C2 amended: over every run of the quiz machine on a 1-3 concept
batch, the recorded concept ids form, in order, a subsequence of the
batch's ids (so the results list is at most as long as the batch; it is
shorter when concepts are skipped, the quiz is ended early, or the run is
aborted); current_index never decreases across a transition that keeps
the quiz alive; and the number of recorded results equals the number of
answered questions. -/
theorem quiz_run_invariants (concepts : List ConceptRow) (mc : Nat)
    (trace : List (GenOutcome × Click))
    (hlen1 : 1 ≤ concepts.length) (hlen3 : concepts.length ≤ 3) :
    List.Sublist
      ((resultsOf (runApp (start_quiz_session concepts mc) trace)).map
        (fun r => r.concept_id))
      (concepts.map (fun c => c.id)) ∧
    (resultsOf (runApp (start_quiz_session concepts mc) trace)).length ≤
      concepts.length ∧
    (∀ (s : SessionState) (gen : GenOutcome) (click : Click)
        (qs qs' : QuizMachineState),
      s.quiz_state = some qs → (appStep s gen click).1.quiz_state = some qs' →
      qs.current_index ≤ qs'.current_index) ∧
    (∀ qs', (runApp (start_quiz_session concepts mc) trace).quiz_state = some qs' →
      qs'.results.length = countAnswered (start_quiz_session concepts mc) trace) := by
  have hinit : (start_quiz_session concepts mc).quiz_state =
      some (create_initial_quiz_state concepts) := rfl
  have haligned0 : sessionAligned (start_quiz_session concepts mc) := by
    intro qs hqs
    rw [hinit] at hqs
    injection hqs with hqs
    subst hqs
    rw [resultsAligned]
    simp [create_initial_quiz_state]
  have hfin := runApp_aligned trace _ haligned0
  have hsub : List.Sublist
      ((resultsOf (runApp (start_quiz_session concepts mc) trace)).map
        (fun r => r.concept_id))
      (concepts.map (fun c => c.id)) := by
    cases hq : (runApp (start_quiz_session concepts mc) trace).quiz_state with
    | none =>
        rw [resultsOf, hq]
        exact List.nil_sublist _
    | some qs' =>
        have hal := hfin qs' hq
        have hcon := (runApp_concepts_results trace _ _ _ hinit hq).1
        rw [resultsOf, hq]
        rw [resultsAligned] at hal
        refine hal.trans ?_
        refine List.Sublist.trans (List.Sublist.map _ (List.take_sublist _ _)) ?_
        rw [hcon]
        exact List.Sublist.refl _
  refine ⟨hsub, ?_, ?_, ?_⟩
  · have hle := hsub.length_le
    simpa using hle
  · intro s gen click qs qs' h1 h2
    exact appStep_index_mono s gen click qs qs' h1 h2
  · intro qs' hq
    have h := (runApp_concepts_results trace _ _ _ hinit hq).2
    simpa [create_initial_quiz_state] using h

/-- Witness for C2 amended: the skip-then-answer run on the two sample
concepts records one result and its id list [2] is a subsequence of
[1, 2]. -/
theorem quiz_run_invariants_witness :
    (1 ≤ ([sampleConceptA, sampleConceptB] : List ConceptRow).length ∧
      ([sampleConceptA, sampleConceptB] : List ConceptRow).length ≤ 3) ∧
    (resultsOf (runApp (start_quiz_session [sampleConceptA, sampleConceptB] 0)
        [(.returned none, .idle), (.returned (some sampleQuizData), .idle),
         (.returned none, .answer 'B'), (.returned none, .finish)])).length ≤
      ([sampleConceptA, sampleConceptB] : List ConceptRow).length := by
  refine ⟨⟨by decide, by decide⟩, ?_⟩
  exact (quiz_run_invariants [sampleConceptA, sampleConceptB] 0
    [(.returned none, .idle), (.returned (some sampleQuizData), .idle),
     (.returned none, .answer 'B'), (.returned none, .finish)]
    (by decide) (by decide)).2.1

end CyberBud
